import Mathlib

/-!
Shallow embedding of the in-browser debug tools shipped with the ASIW Supply
Shopify theme: the per-section component inspector (the two section-debug
scripts) and the page-wide style inspector (style-debug.js).

Modelling conventions:
* JavaScript strings are `String` (manipulated through `String.data` as
  `List Char`); the regular expressions used by the scripts are embedded as
  explicit character-list matchers with the same search-anywhere semantics.
* JavaScript numbers holding CSS pixel measurements are `ℚ`; the arithmetic
  the scripts perform on them (rounding, subtraction of small integers,
  comparison) is exact, so no floating-point rounding is observable.
* DOM element snapshots are explicit structures carrying the computed-style
  fields the scripts read.
-/

/-- Whitespace characters recognised by the regex class `\s` that can occur
in the inputs handled here (space, tab, LF, CR, VT, FF). -/
def isJsSpace (c : Char) : Bool :=
  c == ' ' || c == '\t' || c == '\n' || c == '\r' || c == '\x0b' || c == '\x0c'

/-- Longest leading run of decimal digits of a character list, paired with
the remainder (models a greedy `\d+` match attempt; the run may be empty). -/
def takeDigits : List Char → List Char × List Char
  | [] => ([], [])
  | c :: rest =>
    if c.isDigit then
      let p := takeDigits rest
      (c :: p.1, p.2)
    else ([], c :: rest)

/-- Drop a leading run of whitespace (models a greedy `\s*` match). -/
def dropSpaces : List Char → List Char
  | [] => []
  | c :: rest => if isJsSpace c then dropSpaces rest else c :: rest

/-- Decimal value of a digit string (models `parseInt` on a string that the
regex guarantees consists of decimal digits only). -/
def parseDecL (l : List Char) : Nat :=
  l.foldl (fun n c => n * 10 + (c.toNat - 48)) 0

/-- Lowercase hexadecimal digit character for a value below 16 (as produced
by JavaScript `Number.prototype.toString(16)`). -/
def hexChar (n : Nat) : Char :=
  if n < 10 then Char.ofNat (48 + n) else Char.ofNat (87 + n)

/-- Fuel-driven rendering of a natural number in base 16, most significant
digit first (models `x.toString(16)` for a nonnegative integer; the fuel is
always sufficient when instantiated as in `toHexStr`). -/
def toHexCore : Nat → Nat → List Char
  | 0, _ => []
  | fuel + 1, n =>
    if n < 16 then [hexChar n] else toHexCore fuel (n / 16) ++ [hexChar (n % 16)]

/-- Hexadecimal rendering of a natural number (JavaScript `x.toString(16)`). -/
def toHexStr (n : Nat) : List Char :=
  toHexCore (n + 1) n

/-- Pad a string on the left with the character 0 up to length 2, as in
JavaScript `s.padStart(2, '0')`. -/
def padTo2 (l : List Char) : List Char :=
  if l.length == 0 then ['0', '0'] else if l.length == 1 then '0' :: l else l

/-- ASCII uppercase conversion of one character, the effect
`String.prototype.toUpperCase` has on the ASCII strings produced here. -/
def asciiUpper (c : Char) : Char :=
  if 'a' ≤ c && c ≤ 'z' then Char.ofNat (c.toNat - 32) else c

/-- Two-digit uppercase hexadecimal rendering of one color channel:
`parseInt(match[i]).toString(16).padStart(2, '0')` followed by the final
`toUpperCase` applied to the assembled string. -/
def hexByte (n : Nat) : List Char :=
  (padTo2 (toHexStr n)).map asciiUpper

/-- Result of attempting the regex `rgba?\((\d+),\s*(\d+),\s*(\d+)` at the
head of a character list: the three captured digit strings, or `none` when
the pattern does not match at this position.  The optional `a` is consumed
exactly when it is followed by the opening parenthesis, which is how the
backtracking regex engine treats `a?\(`. -/
def matchRgbAt : List Char → Option (List Char × List Char × List Char)
  | 'r' :: 'g' :: 'b' :: rest =>
    let afterParen : Option (List Char) :=
      match rest with
      | 'a' :: '(' :: r => some r
      | '(' :: r => some r
      | _ => none
    match afterParen with
    | none => none
    | some r =>
      let p1 := takeDigits r
      if p1.1.isEmpty then none
      else
        match p1.2 with
        | ',' :: r2 =>
          let p2 := takeDigits (dropSpaces r2)
          if p2.1.isEmpty then none
          else
            match p2.2 with
            | ',' :: r5 =>
              let p3 := takeDigits (dropSpaces r5)
              if p3.1.isEmpty then none else some (p1.1, p2.1, p3.1)
            | _ => none
        | _ => none
  | _ => none

/-- Unanchored search for the first match of
`rgba?\((\d+),\s*(\d+),\s*(\d+)` in a character list, the semantics of
`String.prototype.match` with a non-anchored regex. -/
def searchRgb : List Char → Option (List Char × List Char × List Char)
  | [] => none
  | c :: rest =>
    match matchRgbAt (c :: rest) with
    | some m => some m
    | none => searchRgb rest

/-- Character-list core of the `rgbToHex` helper of the section-debug
scripts: empty input, the keyword `transparent` and the exact string
`rgba(0, 0, 0, 0)` map to `transparent`; an input in which the triplet
pattern is found maps to a hash sign followed by the three channels in
two-digit uppercase hexadecimal; any other input is returned unchanged. -/
def rgbToHexL (l : List Char) : List Char :=
  if l = [] ∨ l = "transparent".data ∨ l = "rgba(0, 0, 0, 0)".data then
    "transparent".data
  else
    match searchRgb l with
    | none => l
    | some (d1, d2, d3) =>
      '#' :: (hexByte (parseDecL d1) ++ hexByte (parseDecL d2) ++ hexByte (parseDecL d3))

/-- Color normalization `rgbToHex` as defined in both section-debug scripts
(`!rgb`, the literal `transparent` and the literal `rgba(0, 0, 0, 0)` all
return the string `transparent`; otherwise the first `rgb(`/`rgba(` digit
triplet found is converted to `#RRGGBB` in uppercase, and an input without
such a triplet is returned unchanged). -/
def rgbToHex (rgb : String) : String :=
  String.mk (rgbToHexL rgb.data)

/-- Color normalization of style-debug.js: identical pattern handling, but
the transparent cases return `null` (modelled as `none`) instead of the
string `transparent`. -/
def rgbToHexStyle (rgb : String) : Option String :=
  if rgb.data = [] ∨ rgb = "transparent" ∨ rgb = "rgba(0, 0, 0, 0)" then none
  else
    match searchRgb rgb.data with
    | none => some rgb
    | some (d1, d2, d3) =>
      some (String.mk
        ('#' :: (hexByte (parseDecL d1) ++ hexByte (parseDecL d2) ++ hexByte (parseDecL d3))))

/-- Uppercase hexadecimal digit predicate, the character class `[0-9A-F]`. -/
def isUpperHexDigit (c : Char) : Bool :=
  c.isDigit || ('A' ≤ c && c ≤ 'F')

/-- Allowed spacing scale, `EXPECTED.spacingValues` of style-debug.js. -/
def spacingValues : List ℤ := [0, 4, 8, 12, 16, 20, 24, 28, 32, 40, 48, 56, 64, 80, 96, 112, 128]

/-- JavaScript `Math.round`: nearest integer, ties toward positive infinity. -/
def jsRound (q : ℚ) : ℤ := ⌊q + 1 / 2⌋

/-- Spacing consistency check `isConsistentSpacing` of style-debug.js: the
measured value is rounded and accepted when the rounded value is within 2
of some entry of the allowed scale. -/
def isConsistentSpacing (value : ℚ) : Bool :=
  spacingValues.any (fun expected => decide (|jsRound value - expected| ≤ 2))

/-- Prefix test on character lists (JavaScript `startsWith`, also the
anchored regex test used by the file-hint pattern table). -/
def startsWithL : List Char → List Char → Bool
  | _, [] => true
  | [], _ :: _ => false
  | c :: cs, d :: ds => c == d && startsWithL cs ds

/-- JavaScript `String.prototype.startsWith`. -/
def strStartsWith (s pat : String) : Bool :=
  startsWithL s.data pat.data

/-- Substring occurrence test on character lists (JavaScript `includes`,
also the CSS attribute substring selector `[class*="..."]`). -/
def containsSubL : List Char → List Char → Bool
  | [], sub => sub.isEmpty
  | c :: rest, sub => startsWithL (c :: rest) sub || containsSubL rest sub

/-- JavaScript `String.prototype.includes`. -/
def strContainsSub (s sub : String) : Bool :=
  containsSubL s.data sub.data

/-- Accumulator pass for `splitSp`. -/
def splitSpAux : List Char → List Char → List String
  | [], cur => [String.mk cur.reverse]
  | c :: rest, cur =>
    if c == ' ' then String.mk cur.reverse :: splitSpAux rest []
    else splitSpAux rest (c :: cur)

/-- JavaScript `s.split(' ')`: split on every single space character,
keeping empty pieces. -/
def splitSp (s : String) : List String :=
  splitSpAux s.data []

/-- Truthiness of `piece.trim()` in the class-filtering code: the piece has
at least one non-whitespace character. -/
def hasNonWs (s : String) : Bool :=
  s.data.any (fun c => !isJsSpace c)

/-- Token view of a `class` attribute (`el.classList`): whitespace-split
with empty pieces dropped. -/
def classListOf (className : String) : List String :=
  (splitSp className).filter (fun c => c ≠ "")

/-- Section container as seen by the `init` instrumentation of the two
section-debug scripts: the number of descendant elements carrying the
`section-debug-btn` class, and the computed `position` style of the
container. -/
structure SecNode where
  debugBtns : Nat
  position : String
  deriving Repr, DecidableEq

/-- Instrumentation `init` of the section-debug scripts: for each
`.shopify-section` container, a container that already has a
`.section-debug-btn` descendant is skipped entirely; otherwise a
`position: relative` context is ensured for a statically positioned
container and one debug button is appended to it. -/
def init (sections : List SecNode) : List SecNode :=
  sections.map (fun s =>
    if s.debugBtns > 0 then s
    else
      { debugBtns := s.debugBtns + 1,
        position := if s.position == "static" then "relative" else s.position })

/-- File-hint pattern table of `guessFileLocation` (component inspector):
ordered prefix patterns paired with the template path they resolve to. -/
def filePatterns : List (String × String) :=
  [("testimonial", "sections/testimonials.liquid"),
   ("header2", "sections/header2.liquid"),
   ("footer", "sections/footer.liquid"),
   ("features-bar", "sections/features-bar.liquid"),
   ("features-icons", "sections/features-icons.liquid"),
   ("product-card", "snippets/product-card.liquid"),
   ("product-grid", "sections/product-grid.liquid"),
   ("banner", "sections/banner-image-hero.liquid"),
   ("video-hero", "sections/hero-video.liquid"),
   ("wholesale", "sections/wholesale-*.liquid"),
   ("contact", "sections/contact-form.liquid"),
   ("cta-banner", "sections/cta-banner.liquid"),
   ("brand", "sections/brands-grid.liquid"),
   ("card", "snippets/card-*.liquid"),
   ("button", "assets/base.css"),
   ("rte", "snippets/article-*.liquid")]

/-- File-hint resolution `guessFileLocation`: a null class name resolves to
null; otherwise the first pattern whose anchored prefix regex matches the
class name wins; otherwise a known section type yields
`sections/<type>.liquid`; otherwise the fixed default string. -/
def guessFileLocation (className : Option String) (sectionType : Option String) :
    Option String :=
  match className with
  | none => none
  | some c =>
    match filePatterns.find? (fun p => strStartsWith c p.1) with
    | some p => some p.2
    | none =>
      match sectionType with
      | some t => some ("sections/" ++ t ++ ".liquid")
      | none => some "assets/theme-toggle.css (dark mode overrides)"

/-- Environment for one invocation of the copy operation: whether the
asynchronous clipboard API is present, whether its promise resolves, and
how `document.execCommand('copy')` behaves (throw, or return a boolean). -/
structure ClipEnv where
  clipboardAvailable : Bool
  writeResolves : Bool
  execThrows : Bool
  execReturns : Bool
  deriving Repr, DecidableEq

/-- Outcome of `navigator.clipboard.writeText`: an absent API raises a
synchronous TypeError inside the async function and a denied write rejects
the promise; both surface as the error case of the awaited call. -/
def navClipboardWriteText (env : ClipEnv) : Except Unit Unit :=
  if env.clipboardAvailable then
    if env.writeResolves then Except.ok () else Except.error ()
  else Except.error ()

/-- Outcome of `document.execCommand('copy')` on the synthetic textarea. -/
def execCommandCopy (env : ClipEnv) : Except Unit Bool :=
  if env.execThrows then Except.error () else Except.ok env.execReturns

/-- The `copyToClipboard` helper of the copy-button script: try the
clipboard API and return true; on any failure build the hidden textarea and
try `execCommand`, returning true if it does not throw (its boolean result
is ignored) and false if it throws.  The overall result is the value the
returned promise resolves to; an error case would model an uncaught
exception or unhandled rejection. -/
def copyToClipboard (env : ClipEnv) : Except Unit Bool :=
  match navClipboardWriteText env with
  | Except.ok _ => Except.ok true
  | Except.error _ =>
    match execCommandCopy env with
    | Except.ok _ => Except.ok true
    | Except.error _ => Except.ok false

/-- The `fallbackCopyText` helper of the component-inspector script:
`success` starts false, the `execCommand` boolean is captured when it does
not throw, a thrown error is logged and swallowed, and `success` is
returned. -/
def fallbackCopyText (env : ClipEnv) : Except Unit Bool :=
  match execCommandCopy env with
  | Except.ok b => Except.ok b
  | Except.error _ => Except.ok false

/-- Success boolean computed by the modal `copyToClipboard` handler of the
component-inspector script: if the clipboard API is present, await it and
fall back to `fallbackCopyText` on rejection; with no API, go straight to
the fallback. -/
def copyAllSuccess (env : ClipEnv) : Except Unit Bool :=
  if env.clipboardAvailable then
    if env.writeResolves then Except.ok true
    else fallbackCopyText env
  else fallbackCopyText env

/-- ASCII lowercase conversion of one character, the effect
`String.prototype.toLowerCase` has on the ASCII strings handled here. -/
def asciiLower (c : Char) : Char :=
  if 'A' ≤ c && c ≤ 'Z' then Char.ofNat (c.toNat + 32) else c

/-- ASCII string lowercasing (JavaScript `toLowerCase`). -/
def strLower (s : String) : String :=
  String.mk (s.data.map asciiLower)

/-- ASCII string uppercasing (JavaScript `toUpperCase`). -/
def strUpper (s : String) : String :=
  String.mk (s.data.map asciiUpper)

/-- Join string pieces with a dot separator (JavaScript `join('.')`). -/
def joinDot : List String → String
  | [] => ""
  | [x] => x
  | x :: rest => x ++ "." ++ joinDot rest

/-- The `getElementSelector` helper of style-debug.js: lowercased tag name,
`#id` when an id is present, and up to the first two whitespace-surviving
class pieces joined with dots. -/
def getElementSelectorStyle (tag idAttr className : String) : String :=
  let base := strLower tag
  let base := if idAttr ≠ "" then base ++ "#" ++ idAttr else base
  if className ≠ "" then
    let classes := ((splitSp className).filter (fun c => hasNonWs c)).take 2
    if classes ≠ [] then base ++ "." ++ joinDot classes else base
  else base

/-- Light-mode palette `EXPECTED.lightColors` of style-debug.js, in object
order (bg, surface, textPrimary, primary, accent, success, border). -/
def lightColors : List String :=
  ["#F5F7FA", "#FFFFFF", "#2B2C2D", "#005496", "#DD6727", "#28A745", "#E1E5EA"]

/-- Dark-mode palette `EXPECTED.darkColors` of style-debug.js. -/
def darkColors : List String :=
  ["#0F172A", "#1E293B", "#F1F5F9", "#60A5FA", "#F28C38", "#39B47E", "#2D3A50"]

/-- One entry pushed by the conflict scan of style-debug.js. -/
structure Conflict where
  element : String
  type : String
  detail : String
  style : Option String
  expected : Option String
  actual : Option String
  deriving Repr, DecidableEq

/-- Deduplication key of the conflict scan: the concatenation
`c.element + c.type + c.detail`. -/
def conflictKey (c : Conflict) : String :=
  c.element ++ c.type ++ c.detail

/-- Element snapshot consumed by the conflict scan.  `styleColor` and its
siblings are the inline `el.style` values (empty when unset); `varProps`
lists the properties for which some rule of an accessible stylesheet
matching this element declares a `var(...)` value (rules of cross-origin
stylesheets are skipped by the catch and therefore never appear here). -/
structure ConflictElem where
  tag : String
  idAttr : String
  className : String
  inDebugModal : Bool
  offsetParentNull : Bool
  inlineStyle : String
  styleColor : String
  styleBackgroundColor : String
  styleBorderColor : String
  computedColor : String
  computedBackgroundColor : String
  computedBorderColor : String
  innerTextBlank : Bool
  varProps : List String

/-- Allowed colors of the conflict scan: the uppercased active palette plus
the always-allowed constants. -/
def allowedConflictColors (isDark : Bool) : List String :=
  (if isDark then darkColors else lightColors).map strUpper ++
    ["#FFFFFF", "#000000", "#FFF", "#000", "TRANSPARENT"]

/-- JavaScript `s.substring(0, 100)` plus conditional ellipsis, as used on
the inline style attribute in the inline-important conflict entry. -/
def truncate100 (s : String) : String :=
  String.mk (s.data.take 100) ++ (if s.data.length > 100 then "..." else "")

/-- Conflict entries contributed by one color property of one element: an
inline non-`var(` override entry, then a hardcoded-color entry when the
computed color is outside the allowed palette, no matching accessible rule
supplies a `var(...)` value, and the property is a text color on a
text-bearing element or any background color. -/
def conflictChecksForProp (isDark : Bool) (e : ConflictElem) (prop styleVal computedVal : String) :
    List Conflict :=
  let selector := getElementSelectorStyle e.tag e.idAttr e.className
  let inlinePart :=
    if styleVal ≠ "" && !strContainsSub styleVal "var(" then
      [{ element := selector, type := "inline-override",
         detail := "Inline " ++ prop ++ " override",
         style := none, expected := some "theme variable", actual := some styleVal }]
    else []
  let hardcodedPart :=
    match rgbToHexStyle computedVal with
    | none => []
    | some hx =>
      if (allowedConflictColors isDark).contains (strUpper hx) then []
      else
        let isTextElement := !e.innerTextBlank
        if (prop == "color" && isTextElement) || prop == "background-color" then
          if e.varProps.contains prop then []
          else
            [{ element := selector, type := "hardcoded-color",
               detail := "Hardcoded " ++ prop ++ " (not theme variable)",
               style := none, expected := some "var(--color-*)", actual := some hx }]
        else []
  inlinePart ++ hardcodedPart

/-- Conflict entries contributed by one element of the page: nothing for
the tool's own modal or for hidden elements; an inline-important entry when
the style attribute contains `!important`; then the per-property checks for
color, background-color and border-color in that order. -/
def conflictsForElem (isDark : Bool) (e : ConflictElem) : List Conflict :=
  if e.inDebugModal then []
  else if e.offsetParentNull && e.tag != "BODY" then []
  else
    let selector := getElementSelectorStyle e.tag e.idAttr e.className
    let importantPart :=
      if e.inlineStyle ≠ "" && strContainsSub e.inlineStyle "!important" then
        [{ element := selector, type := "inline-important",
           detail := "Inline !important override detected",
           style := some (truncate100 e.inlineStyle), expected := none, actual := none }]
      else []
    importantPart ++
      conflictChecksForProp isDark e "color" e.styleColor e.computedColor ++
      conflictChecksForProp isDark e "background-color" e.styleBackgroundColor
        e.computedBackgroundColor ++
      conflictChecksForProp isDark e "border-color" e.styleBorderColor e.computedBorderColor

/-- Raw conflict list accumulated over the scanned elements, in order. -/
def collectConflicts (isDark : Bool) (elems : List ConflictElem) : List Conflict :=
  elems.flatMap (conflictsForElem isDark)

/-- The stateful `filter` of the final stage of `scanConflicts`: keep an
entry exactly when its key has not been seen, remembering kept keys. -/
def dedupConflicts : List Conflict → List String → List Conflict
  | [], _ => []
  | c :: rest, seen =>
    if seen.contains (conflictKey c) then dedupConflicts rest seen
    else c :: dedupConflicts rest (conflictKey c :: seen)

/-- The `scanConflicts` pass of style-debug.js: collect entries over all
scanned elements, deduplicate by the element-type-detail key, and cap the
result with `slice(0, 100)`. -/
def scanConflicts (isDark : Bool) (elems : List ConflictElem) : List Conflict :=
  (dedupConflicts (collectConflicts isDark elems) []).take 100

/-- Trim whitespace from both ends (JavaScript `String.prototype.trim` on
the ASCII strings handled here). -/
def trimL (l : List Char) : List Char :=
  ((l.dropWhile isJsSpace).reverse.dropWhile isJsSpace).reverse

/-- The `getPrimaryClass` helper of the component inspector: first piece of
the space-split class attribute that survives trimming and is not a
`shopify` or `color-` prefixed class; null for an absent attribute or when
no piece survives. -/
def getPrimaryClass (className : String) : Option String :=
  if className = "" then none
  else
    ((splitSp className).filter (fun c =>
      hasNonWs c && !strStartsWith c "shopify" && !strStartsWith c "color-")).head?

/-- The `getElementSelector` helper of the component inspector: lowercased
tag name, `#id` when present, and up to the first three whitespace-surviving
non-`shopify` class pieces joined with dots. -/
def getElementSelector (tag idAttr className : String) : String :=
  let base := strLower tag
  let base := if idAttr ≠ "" then base ++ "#" ++ idAttr else base
  if className ≠ "" then
    let classes :=
      ((splitSp className).filter (fun c => hasNonWs c && !strStartsWith c "shopify")).take 3
    if classes ≠ [] then base ++ "." ++ joinDot classes else base
  else base

/-- Attempt of the regex `prop:\s*var\(([^)]+)\)` at the head of a
character list: the property name, a colon, optional whitespace, `var(`,
then a nonempty capture of non-`)` characters closed by `)`. -/
def matchVarAt (propPat : List Char) (l : List Char) : Option String :=
  if startsWithL l propPat then
    match l.drop propPat.length with
    | ':' :: r =>
      match dropSpaces r with
      | 'v' :: 'a' :: 'r' :: '(' :: r3 =>
        let cap := r3.takeWhile (fun c => c != ')')
        if cap ≠ [] && (r3.dropWhile (fun c => c != ')')).head? == some ')' then
          some (String.mk cap)
        else none
      | _ => none
    | _ => none
  else none

/-- Unanchored search for `prop:\s*var\(([^)]+)\)`. -/
def searchVar (propPat : List Char) : List Char → Option String
  | [] => none
  | c :: rest =>
    match matchVarAt propPat (c :: rest) with
    | some m => some m
    | none => searchVar propPat rest

/-- The `getCSSVariable` helper of the component inspector: the capture of
`property:\s*var\(([^)]+)\)` searched in the inline style attribute. -/
def getCSSVariable (styleAttr property : String) : Option String :=
  searchVar property.data styleAttr.data

/-- Capture of `\s*([^;]+)` with backtracking: greedy whitespace first,
giving characters back when the nonempty capture would otherwise fail. -/
def matchRatioCapture (rest : List Char) : Option (List Char) :=
  let spaces := rest.takeWhile isJsSpace
  let after := rest.dropWhile isJsSpace
  match after.takeWhile (fun c => c != ';') with
  | [] => if spaces = [] then none else some (spaces.drop (spaces.length - 1))
  | cap => some cap

/-- Attempt of the regex `--ratio-percent:\s*([^;]+)` at the head of a
character list. -/
def matchRatioAt (l : List Char) : Option (List Char) :=
  if startsWithL l "--ratio-percent:".data then
    matchRatioCapture (l.drop 16)
  else none

/-- Unanchored search for `--ratio-percent:\s*([^;]+)`. -/
def searchRatio : List Char → Option (List Char)
  | [] => none
  | c :: rest =>
    match matchRatioAt (c :: rest) with
    | some m => some m
    | none => searchRatio rest

/-- JavaScript `src.length > 80 ? src.substring(0, 80) + '...' : src`. -/
def truncate80 (s : String) : String :=
  if s.data.length > 80 then String.mk (s.data.take 80) ++ "..." else s

/-- Snapshot of one DOM element as read by the component inspector: object
identity (`uid`), tag name as reported by `tagName` (uppercase for HTML
elements), attributes, the computed-style strings the script reads, and
the derived DOM facts it queries (`offsetParent === null`,
`closest('.media')`, `closest('#section-debug-modal')`, image source and
natural size, `complete`). -/
structure Elem where
  uid : Nat
  tag : String
  idAttr : String
  className : String
  styleAttr : String
  color : String
  backgroundColor : String
  borderColor : String
  fontSize : String
  fontWeight : String
  display : String
  position : String
  width : String
  height : String
  aspectRatio : String
  objectFit : String
  paddingBottom : String
  visibility : String
  opacity : String
  offsetParentNull : Bool
  inMediaWrapper : Bool
  inDebugModal : Bool
  src : String
  naturalWidth : Nat
  naturalHeight : Nat
  complete : Bool
  deriving Repr, DecidableEq

/-- A section container together with its descendants in document
(tree-traversal) order, the domain of `section.querySelectorAll`. -/
structure SectionEl where
  container : Elem
  descendants : List Elem
  deriving Repr, DecidableEq

/-- Well-formedness of a section snapshot: DOM nodes are distinct objects,
so the container and the descendants all carry distinct identities. -/
def sectionWF (sec : SectionEl) : Prop :=
  (sec.container.uid :: sec.descendants.map Elem.uid).Nodup

/-- One record pushed into the `components` array by
`scanSectionComponents`; fields absent on the section-container record and
fields the script conditionally nulls are `Option`s. -/
structure ElementFact where
  element : String
  selector : String
  className : Option String
  textColor : String
  textVar : Option String
  bgColor : String
  bgVar : Option String
  borderColor : Option String
  fileHint : Option String
  fontSize : Option String
  fontWeight : Option String
  display : Option String
  position : Option String
  width : Option String
  height : Option String
  aspectRatio : Option String
  objectFit : Option String
  paddingBottom : Option String
  ratioVar : Option String
  visibility : Option String
  opacity : Option String
  isHidden : Option Bool
  imgSrc : Option String
  imgNaturalSize : Option String
  imgLoaded : Option Bool
  isSection : Bool
  deriving Repr, DecidableEq

/-- The record pushed first for the section container itself. -/
def sectionFact (sectionType : Option String) (c : Elem) : ElementFact :=
  { element := "Section Container",
    selector := getElementSelector c.tag c.idAttr c.className,
    className := getPrimaryClass c.className,
    textColor := rgbToHex c.color,
    textVar := none,
    bgColor := rgbToHex c.backgroundColor,
    bgVar := none,
    borderColor := none,
    fileHint := guessFileLocation (getPrimaryClass c.className) sectionType,
    fontSize := none, fontWeight := none, display := none, position := none,
    width := none, height := none, aspectRatio := none, objectFit := none,
    paddingBottom := none, ratioVar := none, visibility := none, opacity := none,
    isHidden := none, imgSrc := none, imgNaturalSize := none, imgLoaded := none,
    isSection := true }

/-- The record pushed for one included child element, given its resolved
primary class, hidden flag, and the three normalized colors the script has
just computed. -/
def childFact (sectionType : Option String) (e : Elem) (cn : String) (isHidden : Bool)
    (textColor bgColor borderColor : String) : ElementFact :=
  let isImage := e.tag == "IMG"
  { element := strLower e.tag,
    selector := getElementSelector e.tag e.idAttr e.className,
    className := some cn,
    textColor := textColor,
    textVar := getCSSVariable e.styleAttr "color",
    bgColor := bgColor,
    bgVar := getCSSVariable e.styleAttr "background-color",
    borderColor := if borderColor ≠ "transparent" then some borderColor else none,
    fileHint := guessFileLocation (some cn) sectionType,
    fontSize := some e.fontSize,
    fontWeight := some e.fontWeight,
    display := some e.display,
    position := if e.position ≠ "static" then some e.position else none,
    width := some e.width,
    height := some e.height,
    aspectRatio := if e.aspectRatio ≠ "auto" then some e.aspectRatio else none,
    objectFit :=
      (if (if isImage then some e.objectFit else none) = some "fill" then none
       else if isImage then some e.objectFit else none),
    paddingBottom := if e.paddingBottom ≠ "0px" then some e.paddingBottom else none,
    ratioVar := (searchRatio e.styleAttr.data).map (fun l => String.mk (trimL l)),
    visibility := if e.visibility ≠ "visible" then some e.visibility else none,
    opacity := if e.opacity ≠ "1" then some e.opacity else none,
    isHidden := some isHidden,
    imgSrc :=
      if isImage then some (if e.src = "" then "NO SRC" else truncate80 e.src) else none,
    imgNaturalSize :=
      if isImage then
        some (if e.naturalWidth ≠ 0 ∧ e.naturalHeight ≠ 0 then
          toString e.naturalWidth ++ "×" ++ toString e.naturalHeight
        else "not loaded")
      else none,
    imgLoaded := if isImage then some (e.complete && e.naturalHeight > 0) else none,
    isSection := false }

/-- One entry of the `selectors` table of `scanSectionComponents`: a tag
selector, an exact class selector (`.c`), or a class-attribute substring
selector (`[class*="s"]`). -/
inductive Sel where
  | tagSel (t : String)
  | classSel (c : String)
  | classSubSel (s : String)
  deriving Repr, DecidableEq

/-- Whether one element matches one selector of the table. -/
def selMatches (e : Elem) : Sel → Bool
  | Sel.tagSel t => e.tag == t
  | Sel.classSel c => (classListOf e.className).contains c
  | Sel.classSubSel s => strContainsSub e.className s

/-- The `selectors` table of `scanSectionComponents`, in source order (tag
selectors carry the uppercase `tagName` they match). -/
def componentSelectors : List Sel :=
  [Sel.tagSel "H1", Sel.tagSel "H2", Sel.tagSel "H3", Sel.tagSel "H4", Sel.tagSel "H5",
   Sel.tagSel "H6",
   Sel.tagSel "P", Sel.tagSel "BLOCKQUOTE", Sel.classSel "rte",
   Sel.classSubSel "card", Sel.classSubSel "item", Sel.classSubSel "block",
   Sel.classSel "media", Sel.classSubSel "media", Sel.tagSel "IMG", Sel.tagSel "PICTURE",
   Sel.tagSel "VIDEO",
   Sel.classSubSel "badge", Sel.classSubSel "tag", Sel.classSubSel "pill",
   Sel.classSubSel "button", Sel.classSubSel "btn",
   Sel.classSubSel "icon", Sel.classSubSel "star",
   Sel.classSubSel "nav", Sel.classSubSel "dot",
   Sel.classSubSel "customer", Sel.classSubSel "service",
   Sel.classSubSel "quote", Sel.classSubSel "text",
   Sel.classSubSel "heading", Sel.classSubSel "title", Sel.classSubSel "description",
   Sel.tagSel "INPUT", Sel.tagSel "TEXTAREA", Sel.tagSel "SELECT", Sel.tagSel "LABEL"]

/-- The `isMediaElement` test of the scan: an image tag, a `media` class,
or an ancestor-or-self `.media` wrapper. -/
def isMediaElement (e : Elem) : Bool :=
  e.tag == "IMG" || (classListOf e.className).contains "media" || e.inMediaWrapper

/-- The `isHidden` test of the scan: no layout box and not the body. -/
def elemIsHidden (e : Elem) : Bool :=
  e.offsetParentNull && e.tag != "BODY"

/-- Primary class resolution inside the scan loop: `getPrimaryClass`, with
the literal `img` substituted for a classless image element. -/
def primaryClassFor (e : Elem) : Option String :=
  match getPrimaryClass e.className with
  | some c => some c
  | none => if e.tag == "IMG" then some "img" else none

/-- Mutable state of one `scanSectionComponents` run: the `components`
array (each pushed record paired, for bookkeeping, with the identity of
the element that produced it) and the contents of the single `seen` set,
split into its class-name strings and its element identities. -/
structure ScanState where
  entries : List (Nat × ElementFact)
  seenClasses : List String
  seenElems : List Nat
  deriving Repr, DecidableEq

/-- Body of the inner `elements.forEach` loop of `scanSectionComponents`:
skip already-processed elements, the tool's own modal, and hidden
non-media elements; resolve the primary class (skipping classless
elements); skip non-image elements whose class was already reported; then
record the element in `seen` and push its record when it has meaningful
styling or is an image or media element. -/
def stepElem (st : Option String) (acc : ScanState) (e : Elem) : ScanState :=
  if acc.seenElems.contains e.uid then acc
  else if e.inDebugModal then acc
  else if elemIsHidden e && !isMediaElement e then acc
  else
    match primaryClassFor e with
    | none => acc
    | some cn =>
      if acc.seenClasses.contains cn && e.tag != "IMG" then acc
      else
        let seenC := cn :: acc.seenClasses
        let seenE := e.uid :: acc.seenElems
        let textColor := rgbToHex e.color
        let bgColor := rgbToHex e.backgroundColor
        let borderColor := rgbToHex e.borderColor
        if textColor != "transparent" || bgColor != "transparent" || e.tag == "IMG" ||
            isMediaElement e then
          { entries :=
              acc.entries ++
                [(e.uid, childFact st e cn (elemIsHidden e) textColor bgColor borderColor)],
            seenClasses := seenC, seenElems := seenE }
        else
          { entries := acc.entries, seenClasses := seenC, seenElems := seenE }

/-- One `selectors.forEach` iteration: run the element loop over the
descendants matched by one selector, in document order. -/
def runPass (st : Option String) (ds : List Elem) (acc : ScanState) (sel : Sel) : ScanState :=
  (ds.filter (fun e => selMatches e sel)).foldl (stepElem st) acc

/-- The entry list produced by one `scanSectionComponents` run: the section
container's record first, then the records pushed by the selector passes.
`getSectionType` is an input here (`st`): the claims under study do not
depend on how the type string is derived from the container. -/
def scanSectionAux (st : Option String) (sec : SectionEl) : List (Nat × ElementFact) :=
  (componentSelectors.foldl (runPass st sec.descendants)
    { entries := [(sec.container.uid, sectionFact st sec.container)],
      seenClasses := [], seenElems := [] }).entries

/-- The `components` array returned by `scanSectionComponents`. -/
def scanSectionComponents (st : Option String) (sec : SectionEl) : List ElementFact :=
  (scanSectionAux st sec).map Prod.snd

/-- Plain visible element used by the concrete counterexamples: a `div`
with the given identity, class attribute and computed colors, all other
computed styles at their defaults. -/
def plainDiv (uid : Nat) (className color bg : String) : Elem :=
  { uid := uid, tag := "DIV", idAttr := "", className := className, styleAttr := "",
    color := color, backgroundColor := bg, borderColor := "rgba(0, 0, 0, 0)",
    fontSize := "16px", fontWeight := "400", display := "block", position := "static",
    width := "100px", height := "50px", aspectRatio := "auto", objectFit := "fill",
    paddingBottom := "0px", visibility := "visible", opacity := "1",
    offsetParentNull := false, inMediaWrapper := false, inDebugModal := false,
    src := "", naturalWidth := 0, naturalHeight := 0, complete := false }

/-- The styling condition guarding the push: meaningful text or background
color, an image tag, or a media classification. -/
def pushCond (e : Elem) : Bool :=
  rgbToHex e.color != "transparent" || rgbToHex e.backgroundColor != "transparent" ||
    e.tag == "IMG" || isMediaElement e

/-- Whether the element loop body reaches the `seen.add` calls for this
element in the given state (no early skip fires). -/
def reachesAdd (acc : ScanState) (e : Elem) : Bool :=
  !acc.seenElems.contains e.uid && !e.inDebugModal &&
    !(elemIsHidden e && !isMediaElement e) &&
    (match primaryClassFor e with
     | none => false
     | some cn => !(acc.seenClasses.contains cn && e.tag != "IMG"))

/-- Entry list of the selector fold started from the empty state; by
`scanSectionAux_eq` the full scan is the container record followed by
these. -/
def scanChildEntries (st : Option String) (sec : SectionEl) : List (Nat × ElementFact) :=
  (componentSelectors.foldl (runPass st sec.descendants) ⟨[], [], []⟩).entries

/-- Growth relation between two scan states: entries extend on the right,
and both components of the `seen` set only gain members. -/
def stateLE (s t : ScanState) : Prop :=
  (∃ u, t.entries = s.entries ++ u) ∧
    (∀ c ∈ s.seenClasses, c ∈ t.seenClasses) ∧ (∀ u ∈ s.seenElems, u ∈ t.seenElems)

/-- An element in this state is past the point of ever being pushed again:
its identity is recorded, or one of the permanent skips fires, or its
class was already reported and it is not an image. -/
def skipNow (s : ScanState) (e : Elem) : Prop :=
  e.uid ∈ s.seenElems ∨ e.inDebugModal = true ∨
    (elemIsHidden e = true ∧ isMediaElement e = false) ∨ primaryClassFor e = none ∨
    (∃ cn, primaryClassFor e = some cn ∧ cn ∈ s.seenClasses ∧ e.tag ≠ "IMG")

/-- Provenance of one child entry: it was produced, unchanged, from a
descendant that survived the modal and visibility checks. -/
def goodEntry (st : Option String) (ds : List Elem) (p : Nat × ElementFact) : Prop :=
  ∃ e ∈ ds, e.uid = p.1 ∧
    e.inDebugModal = false ∧
    ¬(elemIsHidden e = true ∧ isMediaElement e = false) ∧
    ∃ cn, primaryClassFor e = some cn ∧
      p.2 = childFact st e cn (elemIsHidden e) (rgbToHex e.color)
        (rgbToHex e.backgroundColor) (rgbToHex e.borderColor)

/-- Bookkeeping invariant: pushed entries carry distinct element
identities, all of which are recorded in the seen set. -/
def uidInv (s : ScanState) : Prop :=
  (s.entries.map Prod.fst).Nodup ∧ ∀ u ∈ s.entries.map Prod.fst, u ∈ s.seenElems

/-- Number of non-image child records carrying a given class name. -/
def classCount (c : String) (entries : List (Nat × ElementFact)) : Nat :=
  entries.countP (fun p => p.2.imgSrc.isNone && p.2.className == some c)

/-- Deduplication invariant: at most one non-image record per class, and a
reported class is in the seen set. -/
def classInv (s : ScanState) : Prop :=
  ∀ c, classCount c s.entries ≤ 1 ∧ (1 ≤ classCount c s.entries → c ∈ s.seenClasses)

/-- Image completeness invariant: every image descendant whose identity has
been recorded also has a pushed record with image data. -/
def imgInv (ds : List Elem) (s : ScanState) : Prop :=
  ∀ e ∈ ds, e.tag = "IMG" → e.uid ∈ s.seenElems →
    ∃ p ∈ s.entries, p.1 = e.uid ∧ p.2.imgSrc.isSome = true

/-- Final state of the child passes of one scan, starting from an empty
components list and an empty seen set. -/
def finalChildState (st : Option String) (sec : SectionEl) : ScanState :=
  componentSelectors.foldl (runPass st sec.descendants) ⟨[], [], []⟩

/-- Hidden variant of `plainDiv`: no layout box (`offsetParent === null`). -/
def hiddenDiv (uid : Nat) (className color bg : String) : Elem :=
  { plainDiv uid className color bg with offsetParentNull := true }

/-- Image element used by the concrete inputs: an `IMG` with the given
identity, class attribute and source, not yet loaded. -/
def imgElem (uid : Nat) (className src : String) : Elem :=
  { plainDiv uid className "rgb(0, 0, 0)" "rgba(0, 0, 0, 0)" with tag := "IMG", src := src }

/-- Concrete input falsifying claim C2 as stated: two visible non-image
`div`s share the primary class `quote`; the first has fully transparent
styling. -/
def secC2 : SectionEl :=
  { container := plainDiv 0 "secwrap" "rgb(0, 0, 0)" "rgb(255, 255, 255)",
    descendants :=
      [plainDiv 1 "quote" "rgba(0, 0, 0, 0)" "rgba(0, 0, 0, 0)",
       plainDiv 2 "quote" "rgb(255, 0, 0)" "rgba(0, 0, 0, 0)"] }

/-- Concrete section with two images, used by the witnesses. -/
def secImgs : SectionEl :=
  { container := plainDiv 0 "imgsec" "rgb(0, 0, 0)" "rgb(255, 255, 255)",
    descendants := [imgElem 1 "" "a.png", imgElem 2 "" "b.png"] }

/-- Concrete input falsifying claim C8 as stated: two `div.media` elements,
the second hidden; class deduplication drops the hidden one even though it
is classified as media. -/
def secC8 : SectionEl :=
  { container := plainDiv 0 "c8sec" "rgb(0, 0, 0)" "rgb(255, 255, 255)",
    descendants :=
      [plainDiv 1 "media" "rgba(0, 0, 0, 0)" "rgb(1, 2, 3)",
       hiddenDiv 2 "media" "rgba(0, 0, 0, 0)" "rgb(4, 5, 6)"] }

/-- Order in which the selector table reports elements: for each selector
in turn, the matching elements still unclaimed by an earlier selector, in
document order. -/
def canonicalRel (ds : List Elem) : List Sel → List Nat
  | [] => []
  | sel :: rest =>
    (ds.filter (fun e => selMatches e sel)).map Elem.uid ++
      canonicalRel (ds.filter (fun e => !selMatches e sel)) rest

/-- Concrete input falsifying claim C3 as stated: a paragraph precedes a
heading in document order, but the scan reports the heading first because
the selector table lists `h2` before `p`. -/
def secC3 : SectionEl :=
  { container := plainDiv 0 "c3sec" "rgb(0, 0, 0)" "rgb(255, 255, 255)",
    descendants :=
      [{ plainDiv 1 "para" "rgb(10, 20, 30)" "rgba(0, 0, 0, 0)" with tag := "P" },
       { plainDiv 2 "big-heading" "rgb(1, 2, 3)" "rgba(0, 0, 0, 0)" with tag := "H2" }] }

/-- The `normalizeFontFamily` helper of style-debug.js: lowercase, strip
quote characters, trim. -/
def normalizeFontFamily (fontFamily : String) : String :=
  String.mk (trimL ((strLower fontFamily).data.filter (fun c => c ≠ '\'' && c ≠ '"')))

/-- System font fragments accepted by `isExpectedFontFamily`. -/
def systemFonts : List String :=
  ["system-ui", "-apple-system", "blinkmacsystemfont", "segoe ui", "roboto",
   "helvetica neue", "arial", "sans-serif", "noto sans", "liberation sans", "helvetica"]

/-- The `isExpectedFontFamily` check: the normalized family contains some
system font fragment. -/
def isExpectedFontFamily (fontFamily : String) : Bool :=
  systemFonts.any (fun sf => strContainsSub (normalizeFontFamily fontFamily) sf)

/-- The `isThemeColor` check of style-debug.js: null passes; otherwise the
uppercased color must be in the active palette or among the always-allowed
constants. -/
def isThemeColor (isDark : Bool) (hexColor : Option String) : Bool :=
  match hexColor with
  | none => true
  | some hx =>
    ((if isDark then darkColors else lightColors).map strUpper ++
      ["#FFFFFF", "#000000", "#FFF", "#000", "TRANSPARENT", "INHERIT", "CURRENTCOLOR"]).contains
      (strUpper hx)

/-- The `parseSpacingValue` helper: `auto`, `normal`, an absent value and a
non-number all yield null (modelled by a `none` input), and so does an
exact zero; anything else is the parsed number. -/
def parseSpacingValue (v : Option ℚ) : Option ℚ :=
  match v with
  | none => none
  | some q => if q = 0 then none else some q

/-- Snapshot of one page element as read by `scanStyles`: the computed
strings the script keeps whole, and the numeric values of the computed
styles it immediately parses (`parseFloat(styles.fontSize)`,
`parseInt(styles.fontWeight)`, and `parseFloat` of each spacing property,
with `none` standing for `auto`/`normal`/absent). -/
structure PageElem where
  tag : String
  idAttr : String
  className : String
  inDebugModal : Bool
  offsetParentNull : Bool
  fontFamily : String
  fontSizePx : ℚ
  fontWeightNum : ℤ
  color : String
  backgroundColor : String
  marginTop : Option ℚ
  marginBottom : Option ℚ
  marginLeft : Option ℚ
  marginRight : Option ℚ
  paddingTop : Option ℚ
  paddingBottom : Option ℚ
  paddingLeft : Option ℚ
  paddingRight : Option ℚ
  gap : Option ℚ
  rowGap : Option ℚ
  columnGap : Option ℚ
  deriving Repr, DecidableEq

/-- Value stored in the `seenColors` map of `scanStyles`. -/
structure ColorData where
  isTheme : Bool
  elements : List String
  isBg : Bool
  deriving Repr, DecidableEq

/-- Value stored in the `seenSpacing` map of `scanStyles`. -/
structure SpacingData where
  elements : List String
  properties : List String
  isConsistent : Bool
  deriving Repr, DecidableEq

/-- The five insertion-ordered maps built during one `scanStyles` pass
(JavaScript `Map`s keep first-insertion order; numeric string keys are
modelled by the numbers they print). -/
structure StyleMaps where
  fams : List (String × List String)
  sizes : List (ℚ × List String)
  weights : List (ℤ × List String)
  colors : List (String × ColorData)
  spacing : List (ℤ × SpacingData)
  deriving Repr, DecidableEq

/-- In-place update of one key of an insertion-ordered map (the mutation
`map.get(key).push(...)` performs on the stored reference). -/
def updateAssoc {κ ν : Type} [BEq κ] (k : κ) (f : ν → ν) : List (κ × ν) → List (κ × ν)
  | [] => []
  | (k', v) :: rest =>
    if k' == k then (k', f v) :: rest else (k', v) :: updateAssoc k f rest

/-- Key-presence test (`map.has(key)`). -/
def hasKey {κ ν : Type} [BEq κ] (k : κ) (m : List (κ × ν)) : Bool :=
  m.any (fun p => p.1 == k)

/-- Append a selector to an example list unless the cap of 3 is reached
(`if (list.length < 3) list.push(selector)`). -/
def pushCapped (sel : String) (els : List String) : List String :=
  if els.length < 3 then els ++ [sel] else els

/-- Record one occurrence in a capped frequency table: create the key with
an empty example list when absent, then push under the cap. -/
def recordCapped {κ : Type} [BEq κ] (k : κ) (sel : String)
    (m : List (κ × List String)) : List (κ × List String) :=
  updateAssoc k (pushCapped sel) (if hasKey k m then m else m ++ [(k, [])])

/-- Record one occurrence in the uncapped font-family table
(`seenFontFamilies.get(key).push(selector)` with no length guard). -/
def recordFam (k : κ) (sel : String) (m : List (κ × List String)) [BEq κ] :
    List (κ × List String) :=
  updateAssoc k (fun els => els ++ [sel]) (if hasKey k m then m else m ++ [(k, [])])

/-- Record one occurrence in the shared color map. -/
def recordColor (k : String) (isTheme isBg : Bool) (sel : String)
    (m : List (String × ColorData)) : List (String × ColorData) :=
  updateAssoc k (fun d => { d with elements := pushCapped sel d.elements })
    (if hasKey k m then m else m ++ [(k, ⟨isTheme, [], isBg⟩)])

/-- The eleven spacing properties checked per element, with their labels,
in source order. -/
def spacingProps (e : PageElem) : List (Option ℚ × String) :=
  [(e.marginTop, "margin-top"), (e.marginBottom, "margin-bottom"),
   (e.marginLeft, "margin-left"), (e.marginRight, "margin-right"),
   (e.paddingTop, "padding-top"), (e.paddingBottom, "padding-bottom"),
   (e.paddingLeft, "padding-left"), (e.paddingRight, "padding-right"),
   (e.gap, "gap"), (e.rowGap, "row-gap"), (e.columnGap, "column-gap")]

/-- Record one spacing property of one element: positive parsed values are
keyed by their rounded pixel value; the consistency flag is computed at
creation; the property label joins an insertion-ordered set and the
selector is pushed under the cap. -/
def recordSpacing (sel : String) (m : List (ℤ × SpacingData)) (pv : Option ℚ × String) :
    List (ℤ × SpacingData) :=
  match parseSpacingValue pv.1 with
  | none => m
  | some v =>
    if v > 0 then
      updateAssoc (jsRound v)
        (fun d =>
          { d with
            properties :=
              if d.properties.contains pv.2 then d.properties else d.properties ++ [pv.2],
            elements := pushCapped sel d.elements })
        (if hasKey (jsRound v) m then m
         else m ++ [(jsRound v, ⟨[], [], isConsistentSpacing v⟩)])
    else m

/-- Body of the `elements.forEach` loop of `scanStyles`: skip the tool's
modal and hidden elements, then update the five tables. -/
def stepStyle (isDark : Bool) (m : StyleMaps) (e : PageElem) : StyleMaps :=
  if e.inDebugModal then m
  else if e.offsetParentNull && e.tag != "BODY" then m
  else
    let sel := getElementSelectorStyle e.tag e.idAttr e.className
    let fams :=
      if e.fontFamily ≠ "" && !isExpectedFontFamily e.fontFamily then
        recordFam e.fontFamily sel m.fams
      else m.fams
    let sizes := if e.fontSizePx ≠ 0 then recordCapped e.fontSizePx sel m.sizes else m.sizes
    let weights :=
      if e.fontWeightNum ≠ 0 then recordCapped e.fontWeightNum sel m.weights else m.weights
    let colors :=
      match rgbToHexStyle e.color with
      | some c =>
        if c ≠ "#000000" ∧ c ≠ "#FFFFFF" then
          recordColor c (isThemeColor isDark (some c)) false sel m.colors
        else m.colors
      | none => m.colors
    let colors :=
      match rgbToHexStyle e.backgroundColor with
      | some b => recordColor ("bg:" ++ b) (isThemeColor isDark (some b)) true sel colors
      | none => colors
    let spacing := (spacingProps e).foldl (recordSpacing sel) m.spacing
    ⟨fams, sizes, weights, colors, spacing⟩

/-- Entry of the font-family report. -/
structure FamEntry where
  value : String
  elements : List String
  isInconsistent : Bool
  deriving Repr, DecidableEq

/-- Entry of the font-size report (`value` is the number of the rendered
`px` string). -/
structure SizeEntry where
  value : ℚ
  elements : List String
  deriving Repr, DecidableEq

/-- Entry of the font-weight report. -/
structure WeightEntry where
  value : ℤ
  elements : List String
  deriving Repr, DecidableEq

/-- Entry of the color report. -/
structure ColorEntry where
  value : String
  elements : List String
  isTheme : Bool
  isBg : Bool
  deriving Repr, DecidableEq

/-- Entry of the spacing report. -/
structure SpacingEntry where
  value : ℤ
  elements : List String
  properties : List String
  isConsistent : Bool
  deriving Repr, DecidableEq

/-- The `inconsistencies` record returned by `scanStyles`. -/
structure StyleScan where
  fontFamily : List FamEntry
  fontSize : List SizeEntry
  fontWeight : List WeightEntry
  color : List ColorEntry
  spacing : List SpacingEntry
  deriving Repr, DecidableEq

/-- Stable insertion into a sorted list: the new element goes after every
element strictly below it, matching the stable `Array.prototype.sort`. -/
def insertLt {α : Type} (lt : α → α → Bool) (a : α) : List α → List α
  | [] => [a]
  | b :: t => if lt b a then b :: insertLt lt a t else a :: b :: t

/-- Stable sort by a strict comparator. -/
def sortLt {α : Type} (lt : α → α → Bool) (l : List α) : List α :=
  l.foldr (insertLt lt) []

/-- First-occurrence replacement (JavaScript `s.replace(pat, rep)` with a
string pattern). -/
def replaceFirstL (pat rep : List Char) : List Char → List Char
  | [] => []
  | c :: rest =>
    if startsWithL (c :: rest) pat then rep ++ (c :: rest).drop pat.length
    else c :: replaceFirstL pat rep rest

/-- The whole `scanStyles` pass of style-debug.js: one walk over the
visible page elements building the five tables, then conversion to the
report arrays (font sizes, weights and spacing sorted ascending by value,
colors sorted non-theme first with the `bg:` prefix rewritten to a
`" (bg)"` suffix, font families flagged inconsistent as collected). -/
def scanStyles (isDark : Bool) (elems : List PageElem) : StyleScan :=
  let m := elems.foldl (stepStyle isDark) ⟨[], [], [], [], []⟩
  { fontFamily := m.fams.map (fun p => ⟨p.1, p.2, true⟩),
    fontSize :=
      (sortLt (fun a b => decide (a.1 < b.1)) m.sizes).map (fun p => ⟨p.1, p.2⟩),
    fontWeight :=
      (sortLt (fun a b => decide (a.1 < b.1)) m.weights).map (fun p => ⟨p.1, p.2⟩),
    color :=
      sortLt (fun a b => !a.isTheme && b.isTheme)
        (m.colors.map (fun p =>
          ⟨if p.2.isBg then
              String.mk (replaceFirstL "bg:".data [] p.1.data) ++ " (bg)"
            else p.1,
            p.2.elements, p.2.isTheme, p.2.isBg⟩)),
    spacing :=
      (sortLt (fun a b => decide (a.1 < b.1)) m.spacing).map
        (fun p => ⟨p.1, p.2.elements, p.2.properties, p.2.isConsistent⟩) }

/-- Visible page element used by the concrete inputs: a `div` with the
given class attribute and font family, theme text color, no spacing. -/
def plainPage (className fontFamily : String) : PageElem :=
  { tag := "DIV", idAttr := "", className := className, inDebugModal := false,
    offsetParentNull := false, fontFamily := fontFamily, fontSizePx := 16,
    fontWeightNum := 400, color := "rgb(43, 44, 45)",
    backgroundColor := "rgba(0, 0, 0, 0)",
    marginTop := none, marginBottom := none, marginLeft := none, marginRight := none,
    paddingTop := none, paddingBottom := some 8, paddingLeft := none, paddingRight := none,
    gap := none, rowGap := none, columnGap := none }

/-- The per-element step preserves the three-selector cap on the size,
weight, color and spacing tables. -/
def cappedInv (m : StyleMaps) : Prop :=
  (∀ p ∈ m.sizes, p.2.length ≤ 3) ∧ (∀ p ∈ m.weights, p.2.length ≤ 3) ∧
    (∀ p ∈ m.colors, p.2.elements.length ≤ 3) ∧
    (∀ p ∈ m.spacing, p.2.elements.length ≤ 3)

theorem isJsSpace_of_isDigit {c : Char} (h : c.isDigit = true) : isJsSpace c = false := by
  cases hjs : isJsSpace c
  · rfl
  · unfold isJsSpace at hjs
    simp only [Bool.or_eq_true, beq_iff_eq] at hjs
    rcases hjs with ((((h1 | h1) | h1) | h1) | h1) | h1 <;> subst h1 <;>
      exact absurd h (by decide)

theorem takeDigits_split {d : List Char} (r : List Char)
    (hd : ∀ x ∈ d, x.isDigit = true)
    (hr : ∀ c rs, r = c :: rs → c.isDigit = false) :
    takeDigits (d ++ r) = (d, r) := by
  induction d with
  | nil =>
    cases r with
    | nil => rfl
    | cons c rs => simp [takeDigits, hr c rs rfl]
  | cons a t ih =>
    have ha : a.isDigit = true := hd a (by simp)
    simp [takeDigits, ha, ih (fun x hx => hd x (by simp [hx]))]

theorem dropSpaces_of_digits {d : List Char} (r : List Char) (h : d ≠ [])
    (hd : ∀ x ∈ d, x.isDigit = true) :
    dropSpaces (' ' :: (d ++ r)) = d ++ r := by
  cases d with
  | nil => exact absurd rfl h
  | cons a t =>
    have ha : a.isDigit = true := hd a (by simp)
    have hsp : isJsSpace ' ' = true := by decide
    simp [dropSpaces, isJsSpace_of_isDigit ha, hsp]

theorem matchRgbAt_triplet {d1 d2 d3 : List Char} (suffix : List Char)
    (h1 : d1 ≠ []) (hd1 : ∀ x ∈ d1, x.isDigit = true)
    (h2 : d2 ≠ []) (hd2 : ∀ x ∈ d2, x.isDigit = true)
    (h3 : d3 ≠ []) (hd3 : ∀ x ∈ d3, x.isDigit = true)
    (hsuf : ∀ c rs, suffix = c :: rs → c.isDigit = false) :
    matchRgbAt
      ('r' :: 'g' :: 'b' :: '(' ::
        (d1 ++ ',' :: ' ' :: (d2 ++ ',' :: ' ' :: (d3 ++ suffix)))) =
      some (d1, d2, d3) := by
  have e1 : takeDigits (d1 ++ ',' :: ' ' :: (d2 ++ ',' :: ' ' :: (d3 ++ suffix))) =
      (d1, ',' :: ' ' :: (d2 ++ ',' :: ' ' :: (d3 ++ suffix))) :=
    takeDigits_split _ hd1 (by intro c rs h; cases h; decide)
  have e2 : dropSpaces (' ' :: (d2 ++ ',' :: ' ' :: (d3 ++ suffix))) =
      d2 ++ ',' :: ' ' :: (d3 ++ suffix) := dropSpaces_of_digits _ h2 hd2
  have e3 : takeDigits (d2 ++ ',' :: ' ' :: (d3 ++ suffix)) =
      (d2, ',' :: ' ' :: (d3 ++ suffix)) :=
    takeDigits_split _ hd2 (by intro c rs h; cases h; decide)
  have e4 : dropSpaces (' ' :: (d3 ++ suffix)) = d3 ++ suffix :=
    dropSpaces_of_digits _ h3 hd3
  have e5 : takeDigits (d3 ++ suffix) = (d3, suffix) := takeDigits_split _ hd3 hsuf
  simp only [matchRgbAt, e1, e2, e3, e4, e5]
  simp [List.isEmpty_iff, h1, h2, h3]

theorem searchRgb_cons_of_match {c : Char} {rest : List Char}
    {m : List Char × List Char × List Char}
    (h : matchRgbAt (c :: rest) = some m) : searchRgb (c :: rest) = some m := by
  simp [searchRgb, h]

set_option maxRecDepth 4000 in
theorem hexByte_facts :
    ∀ n : Fin 256, (hexByte n.val).length = 2 ∧ (hexByte n.val).all isUpperHexDigit = true := by
  decide

theorem hexByte_length {n : Nat} (h : n < 256) : (hexByte n).length = 2 :=
  (hexByte_facts ⟨n, h⟩).1

theorem hexByte_chars {n : Nat} (h : n < 256) : ∀ c ∈ hexByte n, isUpperHexDigit c = true := by
  have hall := (hexByte_facts ⟨n, h⟩).2
  simpa [List.all_eq_true] using hall

theorem rgbToHexL_triplet {d1 d2 d3 : List Char}
    (h1 : d1 ≠ []) (hd1 : ∀ x ∈ d1, x.isDigit = true)
    (h2 : d2 ≠ []) (hd2 : ∀ x ∈ d2, x.isDigit = true)
    (h3 : d3 ≠ []) (hd3 : ∀ x ∈ d3, x.isDigit = true) :
    rgbToHexL
      ('r' :: 'g' :: 'b' :: '(' :: (d1 ++ ',' :: ' ' :: (d2 ++ ',' :: ' ' :: (d3 ++ [')'])))) =
      '#' :: (hexByte (parseDecL d1) ++ hexByte (parseDecL d2) ++ hexByte (parseDecL d3)) := by
  have hm := matchRgbAt_triplet [')'] h1 hd1 h2 hd2 h3 hd3 (by intro c rs h; cases h; decide)
  have hs := searchRgb_cons_of_match hm
  unfold rgbToHexL
  rw [if_neg, hs]
  intro h
  rcases h with h | h | h
  · exact List.cons_ne_nil _ _ h
  · injection h with e1 h
    exact absurd e1 (by decide)
  · injection h with e1 h
    injection h with e2 h
    injection h with e3 h
    injection h with e4 h
    exact absurd e4 (by decide)

/-- Claim C1 (amended).  The color normalization of the section-debug
scripts returns the literal `transparent` exactly for empty input, the
keyword `transparent` and the exact computed-style string
`rgba(0, 0, 0, 0)` (the style-debug.js variant returns null for those same
inputs); a semi-transparent triplet keeps its channels with the alpha
dropped; and every opaque `rgb(r, g, b)` triplet with channels below 256 is
mapped to a 7-character string of `#` followed by six uppercase hexadecimal
digits. -/
theorem rgbToHex_normalization :
    rgbToHex "" = "transparent" ∧
    rgbToHex "transparent" = "transparent" ∧
    rgbToHex "rgba(0, 0, 0, 0)" = "transparent" ∧
    rgbToHexStyle "rgba(0, 0, 0, 0)" = none ∧
    rgbToHexStyle "transparent" = none ∧
    rgbToHexStyle "" = none ∧
    rgbToHex "rgba(51, 68, 85, 0.4)" = "#334455" ∧
    ∀ d1 d2 d3 : String,
      d1.data ≠ [] → (∀ c ∈ d1.data, c.isDigit = true) → parseDecL d1.data < 256 →
      d2.data ≠ [] → (∀ c ∈ d2.data, c.isDigit = true) → parseDecL d2.data < 256 →
      d3.data ≠ [] → (∀ c ∈ d3.data, c.isDigit = true) → parseDecL d3.data < 256 →
      rgbToHex ("rgb(" ++ d1 ++ ", " ++ d2 ++ ", " ++ d3 ++ ")") =
        String.mk ('#' :: (hexByte (parseDecL d1.data) ++ hexByte (parseDecL d2.data) ++
          hexByte (parseDecL d3.data))) ∧
      (rgbToHex ("rgb(" ++ d1 ++ ", " ++ d2 ++ ", " ++ d3 ++ ")")).length = 7 ∧
      (rgbToHex ("rgb(" ++ d1 ++ ", " ++ d2 ++ ", " ++ d3 ++ ")")).data.head? = some '#' ∧
      ∀ c ∈ (rgbToHex ("rgb(" ++ d1 ++ ", " ++ d2 ++ ", " ++ d3 ++ ")")).data.tail,
        isUpperHexDigit c = true := by
  refine ⟨by decide, by decide, by decide, by decide, by decide, by decide, by decide, ?_⟩
  intro d1 d2 d3 h1 hd1 hv1 h2 hd2 hv2 h3 hd3 hv3
  have hdata : ("rgb(" ++ d1 ++ ", " ++ d2 ++ ", " ++ d3 ++ ")").data =
      'r' :: 'g' :: 'b' :: '(' ::
        (d1.data ++ ',' :: ' ' :: (d2.data ++ ',' :: ' ' :: (d3.data ++ [')']))) := by
    simp [String.data_append]
  have hcore := rgbToHexL_triplet h1 hd1 h2 hd2 h3 hd3
  have hres : rgbToHex ("rgb(" ++ d1 ++ ", " ++ d2 ++ ", " ++ d3 ++ ")") =
      String.mk ('#' :: (hexByte (parseDecL d1.data) ++ hexByte (parseDecL d2.data) ++
        hexByte (parseDecL d3.data))) := by
    rw [rgbToHex, hdata, hcore]
  refine ⟨hres, ?_, ?_, ?_⟩
  · rw [hres, String.length_mk]
    simp [hexByte_length hv1, hexByte_length hv2, hexByte_length hv3]
  · rw [hres]
    rfl
  · rw [hres]
    intro c hc
    simp only [List.tail_cons, List.mem_append] at hc
    rcases hc with (hc | hc) | hc
    · exact hexByte_chars hv1 c hc
    · exact hexByte_chars hv2 c hc
    · exact hexByte_chars hv3 c hc

/-- Witness for claim C1: the amended theorem evaluated at the concrete
opaque triplet `rgb(255, 0, 16)`. -/
theorem rgbToHex_normalization_witness :
    rgbToHex "rgb(255, 0, 16)" = "#FF0010" ∧
    (rgbToHex "rgb(255, 0, 16)").length = 7 := by
  have h := rgbToHex_normalization.2.2.2.2.2.2.2 "255" "0" "16"
    (by decide) (by decide) (by decide) (by decide) (by decide) (by decide)
    (by decide) (by decide) (by decide)
  have heq : "rgb(" ++ "255" ++ ", " ++ "0" ++ ", " ++ "16" ++ ")" = "rgb(255, 0, 16)" := rfl
  rw [heq] at h
  exact ⟨h.1.trans (by decide), h.2.1⟩

/-- Counterexample for claim C1 as stated: the computed-style string
`rgba(255, 0, 0, 0)` represents full transparency (alpha 0), yet the
normalization returns the hex triplet `#FF0000` rather than the literal
`transparent`, because the functions compare against the exact string
`rgba(0, 0, 0, 0)` only. -/
theorem rgbToHex_alpha_zero_counterexample :
    rgbToHex "rgba(255, 0, 0, 0)" = "#FF0000" ∧
    rgbToHex "rgba(255, 0, 0, 0)" ≠ "transparent" ∧
    rgbToHexStyle "rgba(255, 255, 255, 0)" = some "#FFFFFF" := by
  refine ⟨by decide, by decide, by decide⟩

theorem jsRound_near (v : ℚ) (e : ℤ) :
    |jsRound v - e| ≤ 2 ↔ (e : ℚ) - 5 / 2 ≤ v ∧ v < (e : ℚ) + 5 / 2 := by
  unfold jsRound
  rw [abs_le]
  constructor
  · rintro ⟨hl, hr⟩
    have h2 : e - 2 ≤ ⌊v + 1 / 2⌋ := by omega
    have h3 : ⌊v + 1 / 2⌋ < e + 3 := by omega
    have h4 := Int.le_floor.mp h2
    have h5 := Int.floor_lt.mp h3
    push_cast at h4 h5
    constructor <;> linarith
  · rintro ⟨hl, hr⟩
    have h4 : ((e - 2 : ℤ) : ℚ) ≤ v + 1 / 2 := by push_cast; linarith
    have h5 : v + 1 / 2 < ((e + 3 : ℤ) : ℚ) := by push_cast; linarith
    have h2 := Int.le_floor.mpr h4
    have h3 := Int.floor_lt.mpr h5
    omega

/-- Claim C5 (amended).  For every positive measured spacing value `v`, the
consistency check accepts `v` exactly when `v` falls in the half-open band
of radius 5/2 around some entry of the allowed scale — equivalently, when
the rounded value is within 2 of some entry.  In particular a raw value up
to 2.5 away from an entry can still be marked consistent. -/
theorem isConsistentSpacing_band (v : ℚ) (_hv : 0 < v) :
    isConsistentSpacing v = true ↔
      ∃ e ∈ spacingValues, (e : ℚ) - 5 / 2 ≤ v ∧ v < (e : ℚ) + 5 / 2 := by
  unfold isConsistentSpacing
  rw [List.any_eq_true]
  constructor
  · rintro ⟨e, he, hbe⟩
    exact ⟨e, he, (jsRound_near v e).mp (by simpa using hbe)⟩
  · rintro ⟨e, he, hb⟩
    exact ⟨e, he, by simpa using (jsRound_near v e).mpr hb⟩

/-- Witness for claim C5: the amended equivalence evaluated at value 3. -/
theorem isConsistentSpacing_band_witness :
    (0 : ℚ) < 3 ∧
      (isConsistentSpacing 3 = true ↔
        ∃ e ∈ spacingValues, (e : ℚ) - 5 / 2 ≤ 3 ∧ (3 : ℚ) < (e : ℚ) + 5 / 2) :=
  ⟨by norm_num, isConsistentSpacing_band 3 (by norm_num)⟩

theorem jsRound_172_5 : jsRound (172 / 5 : ℚ) = 34 := by
  unfold jsRound
  rw [Int.floor_eq_iff]
  norm_num

/-- Counterexample for claim C5 as stated: the measured value 34.4 is more
than 2 away from every entry of the allowed scale, yet it is marked
consistent, because the check compares the rounded value 34 (within 2 of
the entry 32) rather than the raw value. -/
theorem isConsistentSpacing_counterexample :
    isConsistentSpacing (172 / 5 : ℚ) = true ∧
      ∀ e ∈ spacingValues, 2 < |(172 / 5 : ℚ) - (e : ℤ)| := by
  constructor
  · unfold isConsistentSpacing
    rw [List.any_eq_true]
    refine ⟨32, by norm_num [spacingValues], ?_⟩
    rw [decide_eq_true_eq, jsRound_172_5]
    decide
  · intro e he
    fin_cases he <;> (rw [lt_abs]; norm_num)

/-- Claim C4.  Running the section enumerator `init` twice on an unchanged
document is idempotent: the second run changes nothing, and starting from
containers with no injected control, every container ends up with exactly
one inspect control, because an existing control is checked for before
insertion. -/
theorem init_idempotent (sections : List SecNode) (h : ∀ s ∈ sections, s.debugBtns = 0) :
    init (init sections) = init sections ∧
      ∀ s ∈ init (init sections), s.debugBtns = 1 := by
  have heq : init (init sections) = init sections := by
    unfold init
    rw [List.map_map]
    apply List.map_congr_left
    intro s _
    by_cases hb : s.debugBtns > 0 <;> simp [Function.comp, hb]
  refine ⟨heq, ?_⟩
  rw [heq]
  intro s hs
  unfold init at hs
  rw [List.mem_map] at hs
  obtain ⟨a, ha, rfl⟩ := hs
  simp [h a ha]

/-- Witness for claim C4: two uninstrumented containers, one statically
positioned and one not. -/
theorem init_idempotent_witness :
    init (init [⟨0, "static"⟩, ⟨0, "relative"⟩]) = init [⟨0, "static"⟩, ⟨0, "relative"⟩] ∧
      ∀ s ∈ init (init [⟨0, "static"⟩, ⟨0, "relative"⟩]), s.debugBtns = 1 :=
  init_idempotent [⟨0, "static"⟩, ⟨0, "relative"⟩] (by decide)

/-- Claim C6.  File-hint resolution applies the ordered pattern table with
first match winning: a class name with the testimonial prefix resolves to
the testimonials template path; a class name matching no pattern with a
known section type resolves to `sections/<type>.liquid`; with neither, it
resolves to the fixed default string. -/
theorem guessFileLocation_resolution :
    (∀ (c : String) (st : Option String), strStartsWith c "testimonial" = true →
      guessFileLocation (some c) st = some "sections/testimonials.liquid") ∧
    (∀ c t : String, (∀ p ∈ filePatterns, strStartsWith c p.1 = false) →
      guessFileLocation (some c) (some t) = some ("sections/" ++ t ++ ".liquid")) ∧
    (∀ c : String, (∀ p ∈ filePatterns, strStartsWith c p.1 = false) →
      guessFileLocation (some c) none =
        some "assets/theme-toggle.css (dark mode overrides)") := by
  refine ⟨?_, ?_, ?_⟩
  · intro c st h
    have hf : filePatterns.find? (fun p => strStartsWith c p.1) =
        some ("testimonial", "sections/testimonials.liquid") := by
      unfold filePatterns
      exact List.find?_cons_of_pos _ h
    simp only [guessFileLocation, hf]
  · intro c t h
    have hf : filePatterns.find? (fun p => strStartsWith c p.1) = none := by
      rw [List.find?_eq_none]
      intro p hp
      simp [h p hp]
    simp only [guessFileLocation, hf]
  · intro c h
    have hf : filePatterns.find? (fun p => strStartsWith c p.1) = none := by
      rw [List.find?_eq_none]
      intro p hp
      simp [h p hp]
    simp only [guessFileLocation, hf]

/-- Witness for claim C6: one concrete class name per branch of the
resolution order. -/
theorem guessFileLocation_resolution_witness :
    guessFileLocation (some "testimonial__quote") (some "hero") =
        some "sections/testimonials.liquid" ∧
    guessFileLocation (some "mystery-box") (some "hero") = some "sections/hero.liquid" ∧
    guessFileLocation (some "mystery-box") none =
        some "assets/theme-toggle.css (dark mode overrides)" :=
  ⟨guessFileLocation_resolution.1 "testimonial__quote" (some "hero") (by decide),
   guessFileLocation_resolution.2.1 "mystery-box" "hero" (by decide),
   guessFileLocation_resolution.2.2 "mystery-box" (by decide)⟩

/-- Claim C7.  Both copy operations try the platform clipboard write first;
whenever it rejects or is unavailable they run the textarea-plus-execCommand
fallback; in every environment they complete with a boolean (never an
uncaught exception or unhandled rejection), reporting true on a successful
API write. -/
theorem copy_operations_total :
    ∀ env : ClipEnv,
      (∃ b, copyToClipboard env = Except.ok b) ∧
      (∃ b, copyAllSuccess env = Except.ok b) ∧
      (env.clipboardAvailable = true → env.writeResolves = true →
        copyToClipboard env = Except.ok true ∧ copyAllSuccess env = Except.ok true) ∧
      (env.clipboardAvailable = false ∨ env.writeResolves = false →
        copyAllSuccess env = fallbackCopyText env ∧
        (env.execThrows = false → copyToClipboard env = Except.ok true) ∧
        (env.execThrows = true → copyToClipboard env = Except.ok false)) := by
  intro env
  obtain ⟨ca, wr, et, er⟩ := env
  cases ca <;> cases wr <;> cases et <;>
    simp [copyToClipboard, copyAllSuccess, fallbackCopyText, execCommandCopy,
      navClipboardWriteText]

/-- Witness for claim C7: with the clipboard API absent and `execCommand`
throwing, both operations still complete, reporting failure. -/
theorem copy_operations_total_witness :
    copyToClipboard ⟨false, false, true, false⟩ = Except.ok false ∧
      copyAllSuccess ⟨false, false, true, false⟩ = Except.ok false := by
  have h := copy_operations_total ⟨false, false, true, false⟩
  refine ⟨(h.2.2.2 (Or.inl rfl)).2.2 rfl, ?_⟩
  have hfb := (h.2.2.2 (Or.inl rfl)).1
  rw [hfb]
  rfl

theorem dedupConflicts_keys (l : List Conflict) :
    ∀ seen : List String, ∀ c ∈ dedupConflicts l seen, conflictKey c ∉ seen := by
  induction l with
  | nil => intro seen c hc; simp [dedupConflicts] at hc
  | cons a t ih =>
    intro seen c hc
    by_cases ha : seen.contains (conflictKey a)
    · rw [dedupConflicts, if_pos ha] at hc
      exact ih seen c hc
    · rw [dedupConflicts, if_neg ha] at hc
      rcases List.mem_cons.mp hc with hc | hc
      · subst hc
        simpa using (Bool.eq_false_iff.mpr ha)
      · have hnot := ih (conflictKey a :: seen) c hc
        exact fun hmem => hnot (List.mem_cons_of_mem _ hmem)

theorem dedupConflicts_pairwise (l : List Conflict) :
    ∀ seen : List String,
      (dedupConflicts l seen).Pairwise (fun a b => conflictKey a ≠ conflictKey b) := by
  induction l with
  | nil => intro seen; simp [dedupConflicts]
  | cons a t ih =>
    intro seen
    by_cases ha : seen.contains (conflictKey a)
    · rw [dedupConflicts, if_pos ha]
      exact ih seen
    · rw [dedupConflicts, if_neg ha]
      refine List.Pairwise.cons ?_ (ih (conflictKey a :: seen))
      intro b hb hkey
      have hnot := dedupConflicts_keys t (conflictKey a :: seen) b hb
      exact hnot (by simp [hkey])

/-- Claim C10.  The conflict scan always returns at most 100 entries, and
no two returned entries share the same element-type-detail key: the raw
entry list is deduplicated by that key and then capped with `slice(0,
100)`. -/
theorem scanConflicts_bounded (isDark : Bool) (elems : List ConflictElem) :
    (scanConflicts isDark elems).length ≤ 100 ∧
      (scanConflicts isDark elems).Pairwise (fun a b => conflictKey a ≠ conflictKey b) := by
  constructor
  · unfold scanConflicts
    exact List.length_take_le _ _
  · unfold scanConflicts
    exact (dedupConflicts_pairwise (collectConflicts isDark elems) []).sublist
      (List.take_sublist _ _)

theorem stepElem_eq (st : Option String) (acc : ScanState) (e : Elem) :
    stepElem st acc e =
      if reachesAdd acc e then
        match primaryClassFor e with
        | some cn =>
          { entries :=
              acc.entries ++
                (if pushCond e then
                  [(e.uid, childFact st e cn (elemIsHidden e) (rgbToHex e.color)
                    (rgbToHex e.backgroundColor) (rgbToHex e.borderColor))]
                else []),
            seenClasses := cn :: acc.seenClasses,
            seenElems := e.uid :: acc.seenElems }
        | none => acc
      else acc := by
  by_cases h1 : e.uid ∈ acc.seenElems
  · simp [stepElem, reachesAdd, h1]
  · by_cases h2 : e.inDebugModal = true
    · simp [stepElem, reachesAdd, h1, h2]
    · by_cases h3 : elemIsHidden e = true ∧ isMediaElement e = false
      · simp [stepElem, reachesAdd, h1, h2, h3]
      · cases hcls : primaryClassFor e with
        | none => simp [stepElem, reachesAdd, h1, h2, h3, hcls]
        | some cn =>
          by_cases h4 : cn ∈ acc.seenClasses ∧ ¬e.tag = "IMG"
          · simp [stepElem, reachesAdd, h1, h2, h3, hcls, h4]
          · have h3' : elemIsHidden e = false ∨ isMediaElement e = true := by
              rcases Bool.eq_false_or_eq_true (elemIsHidden e) with h | h
              · rcases Bool.eq_false_or_eq_true (isMediaElement e) with h' | h'
                · exact Or.inr h'
                · exact absurd ⟨h, h'⟩ h3
              · exact Or.inl h
            have h4' : cn ∉ acc.seenClasses ∨ e.tag = "IMG" := by
              by_cases hm : cn ∈ acc.seenClasses
              · right
                by_contra hne
                exact h4 ⟨hm, hne⟩
              · exact Or.inl hm
            by_cases h5 : pushCond e = true
            · have h5' := h5
              unfold pushCond at h5'
              simp only [Bool.or_eq_true, bne_iff_ne, ne_eq, beq_iff_eq] at h5'
              simp [stepElem, reachesAdd, h1, h2, h3, hcls, h4, h5', h3', h4', h5]
            · have h5' := h5
              unfold pushCond at h5'
              simp only [Bool.or_eq_true, bne_iff_ne, ne_eq, beq_iff_eq] at h5'
              simp [stepElem, reachesAdd, h1, h2, h3, hcls, h4, h5', h3', h4', h5]

theorem childFact_imgSrc_isSome (st : Option String) (e : Elem) (cn : String)
    (ih : Bool) (tc bg bc : String) :
    ((childFact st e cn ih tc bg bc).imgSrc.isSome) = (e.tag == "IMG") := by
  by_cases h : e.tag == "IMG" <;> simp [childFact, h]

theorem childFact_className (st : Option String) (e : Elem) (cn : String)
    (ih : Bool) (tc bg bc : String) :
    (childFact st e cn ih tc bg bc).className = some cn := by
  simp [childFact]

theorem stepElem_entries_shift (st : Option String) (xs en : List (Nat × ElementFact))
    (sc : List String) (se : List Nat) (e : Elem) :
    stepElem st ⟨xs ++ en, sc, se⟩ e =
      { stepElem st ⟨en, sc, se⟩ e with
        entries := xs ++ (stepElem st ⟨en, sc, se⟩ e).entries } := by
  rw [stepElem_eq, stepElem_eq,
    show reachesAdd ⟨xs ++ en, sc, se⟩ e = reachesAdd ⟨en, sc, se⟩ e from rfl]
  cases hr : reachesAdd ⟨en, sc, se⟩ e
  · simp
  · cases hcls : primaryClassFor e
    · simp
    · by_cases hp : pushCond e = true <;> simp [hp, List.append_assoc]

theorem foldl_stepElem_shift (st : Option String) (l : List Elem)
    (xs en : List (Nat × ElementFact)) (sc : List String) (se : List Nat) :
    l.foldl (stepElem st) ⟨xs ++ en, sc, se⟩ =
      { l.foldl (stepElem st) ⟨en, sc, se⟩ with
        entries := xs ++ (l.foldl (stepElem st) ⟨en, sc, se⟩).entries } := by
  induction l generalizing en sc se with
  | nil => simp
  | cons a t ih =>
    simp only [List.foldl_cons]
    rw [stepElem_entries_shift]
    obtain ⟨en', sc', se'⟩ := stepElem st ⟨en, sc, se⟩ a
    exact ih en' sc' se'

theorem runPass_entries_shift (st : Option String) (ds : List Elem)
    (xs en : List (Nat × ElementFact)) (sc : List String) (se : List Nat) (sel : Sel) :
    runPass st ds ⟨xs ++ en, sc, se⟩ sel =
      { runPass st ds ⟨en, sc, se⟩ sel with
        entries := xs ++ (runPass st ds ⟨en, sc, se⟩ sel).entries } :=
  foldl_stepElem_shift st _ xs en sc se

theorem foldl_runPass_shift (st : Option String) (ds : List Elem) (sels : List Sel)
    (xs en : List (Nat × ElementFact)) (sc : List String) (se : List Nat) :
    sels.foldl (runPass st ds) ⟨xs ++ en, sc, se⟩ =
      { sels.foldl (runPass st ds) ⟨en, sc, se⟩ with
        entries := xs ++ (sels.foldl (runPass st ds) ⟨en, sc, se⟩).entries } := by
  induction sels generalizing en sc se with
  | nil => simp
  | cons a t ih =>
    simp only [List.foldl_cons]
    rw [runPass_entries_shift]
    obtain ⟨en', sc', se'⟩ := runPass st ds ⟨en, sc, se⟩ a
    exact ih en' sc' se'

/-- The scan is the container record followed by the child records. -/
theorem scanSectionAux_eq (st : Option String) (sec : SectionEl) :
    scanSectionAux st sec =
      (sec.container.uid, sectionFact st sec.container) :: scanChildEntries st sec := by
  unfold scanSectionAux scanChildEntries
  have h := foldl_runPass_shift st sec.descendants componentSelectors
    [(sec.container.uid, sectionFact st sec.container)] [] [] []
  simp only [List.append_nil] at h
  rw [h]
  rfl

theorem stateLE_refl (s : ScanState) : stateLE s s :=
  ⟨⟨[], by simp⟩, fun _ h => h, fun _ h => h⟩

theorem stateLE_trans {a b c : ScanState} (h1 : stateLE a b) (h2 : stateLE b c) :
    stateLE a c := by
  obtain ⟨⟨u1, hu1⟩, hc1, he1⟩ := h1
  obtain ⟨⟨u2, hu2⟩, hc2, he2⟩ := h2
  exact ⟨⟨u1 ++ u2, by rw [hu2, hu1, List.append_assoc]⟩,
    fun c hc => hc2 c (hc1 c hc), fun u hu => he2 u (he1 u hu)⟩

theorem stepElem_le (st : Option String) (s : ScanState) (e : Elem) :
    stateLE s (stepElem st s e) := by
  rw [stepElem_eq]
  cases hr : reachesAdd s e
  · exact stateLE_refl s
  · cases hcls : primaryClassFor e with
    | none => exact stateLE_refl s
    | some cn =>
      by_cases hp : pushCond e = true
      · exact ⟨⟨[(e.uid, childFact st e cn (elemIsHidden e) (rgbToHex e.color)
            (rgbToHex e.backgroundColor) (rgbToHex e.borderColor))], by simp [hp]⟩,
          fun c hc => by simp [List.mem_cons_of_mem _ hc],
          fun u hu => by simp [List.mem_cons_of_mem _ hu]⟩
      · exact ⟨⟨[], by simp [hp]⟩, fun c hc => by simp [List.mem_cons_of_mem _ hc],
          fun u hu => by simp [List.mem_cons_of_mem _ hu]⟩

theorem foldl_stepElem_le (st : Option String) (l : List Elem) (s : ScanState) :
    stateLE s (l.foldl (stepElem st) s) := by
  induction l generalizing s with
  | nil => exact stateLE_refl s
  | cons a t ih => exact stateLE_trans (stepElem_le st s a) (ih (stepElem st s a))

theorem runPass_le (st : Option String) (ds : List Elem) (s : ScanState) (sel : Sel) :
    stateLE s (runPass st ds s sel) :=
  foldl_stepElem_le st _ s

theorem foldl_runPass_le (st : Option String) (ds : List Elem) (sels : List Sel)
    (s : ScanState) : stateLE s (sels.foldl (runPass st ds) s) := by
  induction sels generalizing s with
  | nil => exact stateLE_refl s
  | cons a t ih => exact stateLE_trans (runPass_le st ds s a) (ih (runPass st ds s a))

theorem skipNow_mono {s t : ScanState} {e : Elem} (hle : stateLE s t) (h : skipNow s e) :
    skipNow t e := by
  rcases h with h | h | h | h | ⟨cn, h1, h2, h3⟩
  · exact Or.inl (hle.2.2 _ h)
  · exact Or.inr (Or.inl h)
  · exact Or.inr (Or.inr (Or.inl h))
  · exact Or.inr (Or.inr (Or.inr (Or.inl h)))
  · exact Or.inr (Or.inr (Or.inr (Or.inr ⟨cn, h1, hle.2.1 _ h2, h3⟩)))

theorem reachesAdd_false_of_skip {s : ScanState} {e : Elem} (h : skipNow s e) :
    reachesAdd s e = false := by
  rcases h with h | h | h | h | ⟨cn, h1, h2, h3⟩
  · simp [reachesAdd, h]
  · simp [reachesAdd, h]
  · simp [reachesAdd, h.1, h.2]
  · simp [reachesAdd, h]
  · simp [reachesAdd, h1, h2, h3]

theorem stepElem_of_skip (st : Option String) {s : ScanState} {e : Elem}
    (h : skipNow s e) : stepElem st s e = s := by
  rw [stepElem_eq, reachesAdd_false_of_skip h]
  simp

theorem stepElem_skip_self (st : Option String) (s : ScanState) (e : Elem) :
    skipNow (stepElem st s e) e := by
  by_cases h1 : e.uid ∈ s.seenElems
  · exact skipNow_mono (stepElem_le st s e) (Or.inl h1)
  · by_cases h2 : e.inDebugModal = true
    · exact Or.inr (Or.inl h2)
    · by_cases h3 : elemIsHidden e = true ∧ isMediaElement e = false
      · exact Or.inr (Or.inr (Or.inl h3))
      · cases hcls : primaryClassFor e with
        | none => exact Or.inr (Or.inr (Or.inr (Or.inl hcls)))
        | some cn =>
          by_cases h4 : cn ∈ s.seenClasses ∧ e.tag ≠ "IMG"
          · exact skipNow_mono (stepElem_le st s e)
              (Or.inr (Or.inr (Or.inr (Or.inr ⟨cn, hcls, h4.1, h4.2⟩))))
          · left
            rw [stepElem_eq]
            have hr : reachesAdd s e = true := by
              unfold reachesAdd
              rw [hcls]
              have hb1 : s.seenElems.contains e.uid = false := by simpa using h1
              have hb2 : e.inDebugModal = false := by simpa using h2
              have hb3 : (elemIsHidden e && !isMediaElement e) = false := by
                rcases Bool.eq_false_or_eq_true (elemIsHidden e) with hh | hh
                · rcases Bool.eq_false_or_eq_true (isMediaElement e) with hm | hm
                  · simp [hh, hm]
                  · exact absurd ⟨hh, hm⟩ h3
                · simp [hh]
              have hb4 : (s.seenClasses.contains cn && e.tag != "IMG") = false := by
                by_cases hm : cn ∈ s.seenClasses
                · have ht : e.tag = "IMG" := by
                    by_contra hne
                    exact h4 ⟨hm, hne⟩
                  simp [ht]
                · simp [hm]
              simp [hb1, hb2, hb3, hb4]
              refine ⟨h1, ?_⟩
              by_cases hm : cn ∈ s.seenClasses
              · right
                by_contra hne
                exact h4 ⟨hm, hne⟩
              · exact Or.inl hm
            rw [hr, hcls]
            by_cases hp : pushCond e = true <;> simp [hp]

theorem foldl_skip_visited (st : Option String) (l : List Elem) (s : ScanState) :
    ∀ e ∈ l, skipNow (l.foldl (stepElem st) s) e := by
  induction l generalizing s with
  | nil => simp
  | cons a t ih =>
    intro e he
    rcases List.mem_cons.mp he with rfl | he
    · exact skipNow_mono (foldl_stepElem_le st t _) (stepElem_skip_self st s e)
    · exact ih _ e he

theorem reachesAdd_true_elim {s : ScanState} {e : Elem} (h : reachesAdd s e = true) :
    e.uid ∉ s.seenElems ∧ e.inDebugModal = false ∧
      ¬(elemIsHidden e = true ∧ isMediaElement e = false) ∧
      ∀ cn, primaryClassFor e = some cn → ¬(cn ∈ s.seenClasses ∧ e.tag ≠ "IMG") := by
  unfold reachesAdd at h
  simp only [Bool.and_eq_true, Bool.not_eq_true'] at h
  obtain ⟨⟨⟨h1, h2⟩, h3⟩, h4⟩ := h
  refine ⟨by simpa using h1, h2, ?_, ?_⟩
  · rintro ⟨ha, hb⟩
    rw [ha, hb] at h3
    simp at h3
  · intro cn hcls
    rw [hcls] at h4
    rintro ⟨hm, ht⟩
    simp [hm, ht] at h4

theorem pushCond_false_not_img {e : Elem} (h : pushCond e = false) : e.tag ≠ "IMG" := by
  unfold pushCond at h
  simp only [Bool.or_eq_false_iff] at h
  intro ht
  have := h.1.2
  simp [ht] at this

theorem stepElem_good (st : Option String) (ds : List Elem) {s : ScanState} {e : Elem}
    (he : e ∈ ds) (hinv : ∀ p ∈ s.entries, goodEntry st ds p) :
    ∀ p ∈ (stepElem st s e).entries, goodEntry st ds p := by
  rw [stepElem_eq]
  cases hr : reachesAdd s e
  · simpa using hinv
  · cases hcls : primaryClassFor e with
    | none => simpa using hinv
    | some cn =>
      by_cases hp : pushCond e = true
      · simp only [hp, if_true, if_pos]
        intro p hmem
        rcases List.mem_append.mp hmem with h | h
        · exact hinv p h
        · obtain ⟨_, r2, r3, _⟩ := reachesAdd_true_elim hr
          rcases List.mem_singleton.mp h with rfl
          exact ⟨e, he, rfl, r2, r3, cn, hcls, rfl⟩
      · simpa [hp] using hinv

theorem foldl_good (st : Option String) (ds l : List Elem) (s : ScanState)
    (hl : ∀ e ∈ l, e ∈ ds) (hinv : ∀ p ∈ s.entries, goodEntry st ds p) :
    ∀ p ∈ (l.foldl (stepElem st) s).entries, goodEntry st ds p := by
  induction l generalizing s with
  | nil => simpa using hinv
  | cons a t ih =>
    exact ih _ (fun e he => hl e (List.mem_cons_of_mem _ he))
      (stepElem_good st ds (hl a (List.mem_cons_self a t)) hinv)

theorem runPass_good (st : Option String) (ds : List Elem) (s : ScanState) (sel : Sel)
    (hinv : ∀ p ∈ s.entries, goodEntry st ds p) :
    ∀ p ∈ (runPass st ds s sel).entries, goodEntry st ds p :=
  foldl_good st ds _ s (fun _ he => (List.mem_filter.mp he).1) hinv

theorem scanChildEntries_good (st : Option String) (sec : SectionEl) :
    ∀ p ∈ scanChildEntries st sec, goodEntry st sec.descendants p := by
  unfold scanChildEntries
  generalize hsels : componentSelectors = sels
  clear hsels
  induction sels using List.reverseRecOn with
  | nil => simp
  | append_singleton t sel ih =>
    rw [List.foldl_append]
    exact runPass_good st sec.descendants _ sel (by simpa using ih)

theorem stepElem_uidInv (st : Option String) {s : ScanState} (e : Elem)
    (hinv : uidInv s) : uidInv (stepElem st s e) := by
  obtain ⟨hnd, hsub⟩ := hinv
  rw [stepElem_eq]
  cases hr : reachesAdd s e
  · exact ⟨hnd, hsub⟩
  · cases hcls : primaryClassFor e with
    | none => exact ⟨hnd, hsub⟩
    | some cn =>
      by_cases hp : pushCond e = true
      · obtain ⟨hnew, _, _, _⟩ := reachesAdd_true_elim hr
        simp only [hp, if_true, if_pos]
        constructor
        · rw [List.map_append, List.nodup_append]
          refine ⟨hnd, by simp, ?_⟩
          intro u hu
          simp only [List.map_cons, List.map_nil, List.mem_singleton]
          rintro rfl
          exact hnew (hsub _ hu)
        · intro u hu
          rw [List.map_append] at hu
          rcases List.mem_append.mp hu with h | h
          · exact List.mem_cons_of_mem _ (hsub u h)
          · simp only [List.map_cons, List.map_nil, List.mem_singleton] at h
            subst h
            exact List.mem_cons_self _ _
      · simp only [if_pos, if_neg hp, List.append_nil]
        exact ⟨by simpa using hnd, fun u hu => List.mem_cons_of_mem _ (hsub u hu)⟩

theorem stepElem_classInv (st : Option String) {s : ScanState} (e : Elem)
    (hinv : classInv s) : classInv (stepElem st s e) := by
  rw [stepElem_eq]
  cases hr : reachesAdd s e
  · exact hinv
  · cases hcls : primaryClassFor e with
    | none => exact hinv
    | some cn =>
      by_cases hp : pushCond e = true
      · simp only [hp, if_true, if_pos]
        intro c
        set newp :=
          (e.uid, childFact st e cn (elemIsHidden e) (rgbToHex e.color)
            (rgbToHex e.backgroundColor) (rgbToHex e.borderColor)) with hnewp
        have hcnt : classCount c (s.entries ++ [newp]) =
            classCount c s.entries + classCount c [newp] := List.countP_append _ _ _
        by_cases htag : e.tag = "IMG"
        · have hzero : classCount c [newp] = 0 := by
            simp [classCount, hnewp, List.countP_cons, childFact, htag]
          rw [hcnt, hzero, Nat.add_zero]
          exact ⟨(hinv c).1, fun h => List.mem_cons_of_mem _ ((hinv c).2 h)⟩
        · by_cases hc : c = cn
          · subst hc
            have hnotin : c ∉ s.seenClasses := by
              obtain ⟨_, _, _, h4⟩ := reachesAdd_true_elim hr
              intro hmem
              exact (h4 c hcls) ⟨hmem, htag⟩
            have hzeroOld : classCount c s.entries = 0 := by
              by_contra hnz
              exact hnotin ((hinv c).2 (Nat.one_le_iff_ne_zero.mpr hnz))
            have hone : classCount c [newp] = 1 := by
              simp [classCount, hnewp, List.countP_cons, childFact, htag]
            rw [hcnt, hzeroOld, hone]
            exact ⟨le_refl 1, fun _ => List.mem_cons_self _ _⟩
          · have hzero : classCount c [newp] = 0 := by
              simp [classCount, hnewp, List.countP_cons, childFact, htag]
              intro h
              exact absurd h.symm hc
            rw [hcnt, hzero, Nat.add_zero]
            exact ⟨(hinv c).1, fun h => List.mem_cons_of_mem _ ((hinv c).2 h)⟩
      · simp only [if_pos, if_neg hp, List.append_nil]
        intro c
        exact ⟨(hinv c).1, fun h => List.mem_cons_of_mem _ ((hinv c).2 h)⟩

theorem stepElem_imgInv (st : Option String) {ds : List Elem}
    (hnd : (ds.map Elem.uid).Nodup) {s : ScanState} {e : Elem} (he : e ∈ ds)
    (hinv : imgInv ds s) : imgInv ds (stepElem st s e) := by
  rw [stepElem_eq]
  cases hr : reachesAdd s e
  · exact hinv
  · cases hcls : primaryClassFor e with
    | none => exact hinv
    | some cn =>
      by_cases hp : pushCond e = true
      · simp only [hp, if_true, if_pos]
        intro e' he' htag huid
        rcases List.mem_cons.mp huid with heq | hold
        · have heq' : e' = e := List.inj_on_of_nodup_map hnd he' he heq
          subst heq'
          refine ⟨(e'.uid, childFact st e' cn (elemIsHidden e') (rgbToHex e'.color)
            (rgbToHex e'.backgroundColor) (rgbToHex e'.borderColor)),
            List.mem_append.mpr (Or.inr (List.mem_singleton.mpr rfl)), rfl, ?_⟩
          rw [childFact_imgSrc_isSome]
          simp [htag]
        · obtain ⟨p, hmem, h1, h2⟩ := hinv e' he' htag hold
          exact ⟨p, List.mem_append.mpr (Or.inl hmem), h1, h2⟩
      · have hpf : pushCond e = false := by
          cases hb : pushCond e
          · rfl
          · exact absurd hb hp
        simp only [if_pos, if_neg hp, List.append_nil]
        intro e' he' htag' huid
        rcases List.mem_cons.mp huid with heq | hold
        · have heq' : e' = e := List.inj_on_of_nodup_map hnd he' he heq
          subst heq'
          exact absurd htag' (pushCond_false_not_img hpf)
        · exact hinv e' he' htag' hold

theorem scanChildEntries_eq_final (st : Option String) (sec : SectionEl) :
    scanChildEntries st sec = (finalChildState st sec).entries := rfl

theorem foldl_classInv (st : Option String) (l : List Elem) (s : ScanState)
    (h : classInv s) : classInv (l.foldl (stepElem st) s) := by
  induction l generalizing s with
  | nil => exact h
  | cons a t ih => exact ih _ (stepElem_classInv st a h)

theorem foldl_uidInv (st : Option String) (l : List Elem) (s : ScanState)
    (h : uidInv s) : uidInv (l.foldl (stepElem st) s) := by
  induction l generalizing s with
  | nil => exact h
  | cons a t ih => exact ih _ (stepElem_uidInv st a h)

theorem foldl_imgInv (st : Option String) {ds : List Elem}
    (hnd : (ds.map Elem.uid).Nodup) (l : List Elem) (s : ScanState)
    (hl : ∀ e ∈ l, e ∈ ds) (h : imgInv ds s) : imgInv ds (l.foldl (stepElem st) s) := by
  induction l generalizing s with
  | nil => exact h
  | cons a t ih =>
    exact ih _ (fun e he => hl e (List.mem_cons_of_mem _ he))
      (stepElem_imgInv st hnd (hl a (List.mem_cons_self a t)) h)

theorem finalChildState_classInv (st : Option String) (sec : SectionEl) :
    classInv (finalChildState st sec) := by
  unfold finalChildState
  generalize componentSelectors = sels
  induction sels using List.reverseRecOn with
  | nil => intro c; simp [classCount]
  | append_singleton t sel ih =>
    rw [List.foldl_append, List.foldl_cons, List.foldl_nil]
    exact foldl_classInv st _ _ ih

theorem finalChildState_uidInv (st : Option String) (sec : SectionEl) :
    uidInv (finalChildState st sec) := by
  unfold finalChildState
  generalize componentSelectors = sels
  induction sels using List.reverseRecOn with
  | nil => exact ⟨List.nodup_nil, by simp⟩
  | append_singleton t sel ih =>
    rw [List.foldl_append, List.foldl_cons, List.foldl_nil]
    exact foldl_uidInv st _ _ ih

theorem finalChildState_imgInv (st : Option String) (sec : SectionEl)
    (hnd : (sec.descendants.map Elem.uid).Nodup) :
    imgInv sec.descendants (finalChildState st sec) := by
  unfold finalChildState
  generalize componentSelectors = sels
  induction sels using List.reverseRecOn with
  | nil => intro e he htag huid; simp at huid
  | append_singleton t sel ih =>
    rw [List.foldl_append, List.foldl_cons, List.foldl_nil]
    exact foldl_imgInv st hnd _ _ (fun _ he => (List.mem_filter.mp he).1) ih

theorem finalChildState_covers_imgs (st : Option String) (sec : SectionEl) :
    ∀ e ∈ sec.descendants, e.tag = "IMG" → skipNow (finalChildState st sec) e := by
  intro e he htag
  have hdecomp : componentSelectors =
      [Sel.tagSel "H1", Sel.tagSel "H2", Sel.tagSel "H3", Sel.tagSel "H4", Sel.tagSel "H5",
       Sel.tagSel "H6", Sel.tagSel "P", Sel.tagSel "BLOCKQUOTE", Sel.classSel "rte",
       Sel.classSubSel "card", Sel.classSubSel "item", Sel.classSubSel "block",
       Sel.classSel "media", Sel.classSubSel "media"] ++
        Sel.tagSel "IMG" ::
          [Sel.tagSel "PICTURE", Sel.tagSel "VIDEO", Sel.classSubSel "badge",
           Sel.classSubSel "tag", Sel.classSubSel "pill", Sel.classSubSel "button",
           Sel.classSubSel "btn", Sel.classSubSel "icon", Sel.classSubSel "star",
           Sel.classSubSel "nav", Sel.classSubSel "dot", Sel.classSubSel "customer",
           Sel.classSubSel "service", Sel.classSubSel "quote", Sel.classSubSel "text",
           Sel.classSubSel "heading", Sel.classSubSel "title", Sel.classSubSel "description",
           Sel.tagSel "INPUT", Sel.tagSel "TEXTAREA", Sel.tagSel "SELECT",
           Sel.tagSel "LABEL"] := rfl
  unfold finalChildState
  rw [hdecomp, List.foldl_append, List.foldl_cons]
  refine skipNow_mono (foldl_runPass_le st sec.descendants _ _) ?_
  unfold runPass
  refine foldl_skip_visited st _ _ e ?_
  rw [List.mem_filter]
  exact ⟨he, by simp [selMatches, htag]⟩

theorem skipNow_img_uid {s : ScanState} {e : Elem} (hsk : skipNow s e)
    (htag : e.tag = "IMG") (hmod : e.inDebugModal = false) : e.uid ∈ s.seenElems := by
  rcases hsk with h | h | h | h | ⟨_, _, _, h3⟩
  · exact h
  · rw [hmod] at h
    exact absurd h (by simp)
  · exact absurd h.2 (by simp [isMediaElement, htag])
  · unfold primaryClassFor at h
    cases hg : getPrimaryClass e.className
    · rw [hg] at h
      simp [htag] at h
    · rw [hg] at h
      simp at h
  · exact absurd htag h3

/-- Claim C2 (amended).  Within one per-section scan, at most one non-image
child record is produced per primary class (and possibly none, because a
class is consumed by the first matching element even when the styling
filter then drops it, and the container record is exempt from the
deduplication); every `<img>` descendant outside the tool's modal produces
a record of its own regardless of shared class names, and no element
produces two records. -/
theorem scan_dedup (st : Option String) (sec : SectionEl) (hwf : sectionWF sec) :
    (∀ c, (scanSectionComponents st sec).tail.countP
        (fun f => f.imgSrc.isNone && f.className == some c) ≤ 1) ∧
    (∀ e ∈ sec.descendants, e.tag = "IMG" → e.inDebugModal = false →
      ∃ p ∈ scanChildEntries st sec, p.1 = e.uid ∧ p.2.imgSrc.isSome = true) ∧
    ((scanSectionAux st sec).map Prod.fst).Nodup := by
  have hnd : (sec.descendants.map Elem.uid).Nodup := (List.nodup_cons.mp hwf).2
  have htail : (scanSectionComponents st sec).tail = (scanChildEntries st sec).map Prod.snd := by
    rw [scanSectionComponents, scanSectionAux_eq, List.map_cons, List.tail_cons]
  refine ⟨?_, ?_, ?_⟩
  · intro c
    rw [htail, List.countP_map]
    have h := (finalChildState_classInv st sec c).1
    rw [scanChildEntries_eq_final]
    exact h
  · intro e he htag hmod
    have hsk := finalChildState_covers_imgs st sec e he htag
    have huid := skipNow_img_uid hsk htag hmod
    rw [scanChildEntries_eq_final]
    exact finalChildState_imgInv st sec hnd e he htag huid
  · rw [scanSectionAux_eq, List.map_cons, List.nodup_cons]
    constructor
    · intro hmem
      rw [List.mem_map] at hmem
      obtain ⟨p, hp, hpe⟩ := hmem
      obtain ⟨e, he, heuid, _⟩ := scanChildEntries_good st sec p hp
      have : sec.container.uid ∈ sec.descendants.map Elem.uid :=
        List.mem_map.mpr ⟨e, he, by rw [heuid, hpe]⟩
      exact (List.nodup_cons.mp hwf).1 this
    · rw [scanChildEntries_eq_final]
      exact (finalChildState_uidInv st sec).1

/-- Witness for claim C2: the amended statement at a concrete section with
two images, plus the concrete premise discharges. -/
theorem scan_dedup_witness :
    ((scanSectionComponents none secImgs).tail.countP
        (fun f => f.imgSrc.isNone && f.className == some "img") ≤ 1) ∧
    (∃ p ∈ scanChildEntries none secImgs, p.1 = 1 ∧ p.2.imgSrc.isSome = true) ∧
    (∃ p ∈ scanChildEntries none secImgs, p.1 = 2 ∧ p.2.imgSrc.isSome = true) := by
  have h := scan_dedup none secImgs (by unfold sectionWF; decide)
  exact ⟨h.1 "img",
    h.2.1 (imgElem 1 "" "a.png") (by decide) (by decide) (by decide),
    h.2.1 (imgElem 2 "" "b.png") (by decide) (by decide) (by decide)⟩

/-- Counterexample for claim C2 as stated: in `secC2` two non-image
elements share the primary class `quote`, yet no record for that class
appears at all — the first element consumes the class in the seen set and
is then dropped by the styling filter, and the second is deduplicated
away.  The claim demands exactly one. -/
theorem scan_dedup_counterexample :
    (secC2.descendants.map (fun e => getPrimaryClass e.className)) =
        [some "quote", some "quote"] ∧
    (secC2.descendants.map Elem.tag) = ["DIV", "DIV"] ∧
    (scanSectionComponents none secC2).countP (fun f => f.className == some "quote") = 0 := by
  refine ⟨by decide, by decide, by decide⟩

/-- Claim C8 (amended).  A descendant with no layout box that is not the
body and not classified as media never produces a record; every `<img>`
descendant outside the tool's modal still produces one (even when hidden);
but a hidden non-image media element may still be dropped by the class
deduplication, so "still included" does not hold for it unconditionally. -/
theorem scan_visibility (st : Option String) (sec : SectionEl) (hwf : sectionWF sec) :
    (∀ e ∈ sec.descendants, elemIsHidden e = true → isMediaElement e = false →
      ∀ p ∈ scanChildEntries st sec, p.1 ≠ e.uid) ∧
    (∀ e ∈ sec.descendants, e.tag = "IMG" → e.inDebugModal = false →
      ∃ p ∈ scanChildEntries st sec, p.1 = e.uid) := by
  have hnd : (sec.descendants.map Elem.uid).Nodup := (List.nodup_cons.mp hwf).2
  refine ⟨?_, ?_⟩
  · intro e he hhid hmed p hp heq
    obtain ⟨e', he', heuid, _, h3, _⟩ := scanChildEntries_good st sec p hp
    have : e' = e := List.inj_on_of_nodup_map hnd he' he (by rw [heuid, heq])
    subst this
    exact h3 ⟨hhid, hmed⟩
  · intro e he htag hmod
    have hsk := finalChildState_covers_imgs st sec e he htag
    have huid := skipNow_img_uid hsk htag hmod
    rw [scanChildEntries_eq_final]
    obtain ⟨p, hp, h1, _⟩ := finalChildState_imgInv st sec hnd e he htag huid
    exact ⟨p, hp, h1⟩

/-- Witness for claim C8: the amended statement at a concrete section
containing one hidden styled `div` (excluded) and the image section
(hidden or not, images appear). -/
theorem scan_visibility_witness :
    (∀ p ∈ scanChildEntries none
      { container := plainDiv 0 "wsec" "rgb(0, 0, 0)" "rgb(255, 255, 255)",
        descendants := [hiddenDiv 1 "quote" "rgb(9, 9, 9)" "rgba(0, 0, 0, 0)"] },
      p.1 ≠ 1) ∧
    (∃ p ∈ scanChildEntries none secImgs, p.1 = 2) := by
  constructor
  · exact (scan_visibility none _ (by unfold sectionWF; decide)).1
      (hiddenDiv 1 "quote" "rgb(9, 9, 9)" "rgba(0, 0, 0, 0)") (by decide) (by decide)
      (by decide)
  · exact (scan_visibility none secImgs (by unfold sectionWF; decide)).2 (imgElem 2 "" "b.png") (by decide)
      (by decide) (by decide)

/-- Counterexample for claim C8 as stated: in `secC8` the second
descendant is hidden and classified as media (`div.media`), yet the scan
output contains records only for the container (identity 0) and the first
media element (identity 1) — the hidden media element is excluded by class
deduplication despite the claim that it "is still included". -/
theorem scan_visibility_counterexample :
    (secC8.descendants.map (fun e => (elemIsHidden e, isMediaElement e))) =
        [(false, true), (true, true)] ∧
    (scanSectionAux none secC8).map Prod.fst = [0, 1] := by
  refine ⟨by decide, by decide⟩

theorem stepElem_entries_cases (st : Option String) (s : ScanState) (e : Elem) :
    (stepElem st s e).entries = s.entries ∨
      ∃ f, (stepElem st s e).entries = s.entries ++ [(e.uid, f)] := by
  rw [stepElem_eq]
  cases hr : reachesAdd s e
  · exact Or.inl rfl
  · cases hcls : primaryClassFor e with
    | none => exact Or.inl rfl
    | some cn =>
      by_cases hp : pushCond e = true
      · exact Or.inr ⟨childFact st e cn (elemIsHidden e) (rgbToHex e.color)
          (rgbToHex e.backgroundColor) (rgbToHex e.borderColor), by simp [hp]⟩
      · exact Or.inl (by simp [hp])

theorem filter_mem_eq_of_sublist {α : Type} [DecidableEq α] {l' l : List α}
    (h : List.Sublist l' l) (hnd : l.Nodup) : l.filter (fun a => decide (a ∈ l')) = l' := by
  induction h with
  | slnil => rfl
  | cons a h ih =>
    have hna : a ∉ _ := fun hmem => (List.nodup_cons.mp hnd).1 (h.subset hmem)
    rw [List.filter_cons_of_neg (by simpa using hna)]
    exact ih (List.nodup_cons.mp hnd).2
  | cons₂ a h ih =>
    rw [List.filter_cons_of_pos (by simp)]
    have hna : a ∉ _ := (List.nodup_cons.mp hnd).1
    have hcongr : ∀ l₂ : List α, a ∉ l₂ → ∀ l₁,
        l₂.filter (fun e => decide (e ∈ a :: l₁)) = l₂.filter (fun e => decide (e ∈ l₁)) := by
      intro l₂ hn l₁
      apply List.filter_congr
      intro e he
      have hne : e ≠ a := fun heq => hn (heq ▸ he)
      simp [List.mem_cons, hne]
    rw [hcongr _ hna _]
    rw [ih (List.nodup_cons.mp hnd).2]

theorem foldl_entries_sub (st : Option String) (ds ds' : List Elem) (l : List Elem)
    (s : ScanState) (hl : ∀ e ∈ l, e ∈ ds)
    (hskip : ∀ e ∈ ds, e ∉ ds' → skipNow s e) :
    List.Sublist ((l.foldl (stepElem st) s).entries.map Prod.fst)
      ((s.entries.map Prod.fst) ++ ((l.filter (fun e => decide (e ∈ ds'))).map Elem.uid)) := by
  induction l generalizing s with
  | nil => simp
  | cons a t ih =>
    simp only [List.foldl_cons]
    have hsk' : ∀ e ∈ ds, e ∉ ds' → skipNow (stepElem st s a) e :=
      fun e he hne => skipNow_mono (stepElem_le st s a) (hskip e he hne)
    by_cases ha : a ∈ ds'
    · rw [List.filter_cons_of_pos (by simpa using ha)]
      have hsub := ih (stepElem st s a) (fun e he => hl e (List.mem_cons_of_mem _ he)) hsk'
      rcases stepElem_entries_cases st s a with hsame | ⟨f, hpush⟩
      · rw [hsame] at hsub
        refine hsub.trans ?_
        exact List.Sublist.append_left (List.sublist_cons_self _ _) _
      · rw [hpush] at hsub
        simp only [List.map_append, List.map_cons, List.map_nil] at hsub
        rw [List.append_assoc, List.singleton_append] at hsub
        exact hsub
    · rw [List.filter_cons_of_neg (by simpa using ha)]
      have hskA : skipNow s a := hskip a (hl a (List.mem_cons_self a t)) ha
      rw [stepElem_of_skip st hskA]
      exact ih s (fun e he => hl e (List.mem_cons_of_mem _ he)) hskip

theorem runPass_entries_sub (st : Option String) {ds ds' : List Elem} (s : ScanState)
    (sel : Sel) (hsub : List.Sublist ds' ds) (hnd : ds.Nodup)
    (hskip : ∀ e ∈ ds, e ∉ ds' → skipNow s e) :
    List.Sublist ((runPass st ds s sel).entries.map Prod.fst)
      ((s.entries.map Prod.fst) ++ ((ds'.filter (fun e => selMatches e sel)).map Elem.uid)) := by
  unfold runPass
  have h := foldl_entries_sub st ds ds' (ds.filter (fun e => selMatches e sel)) s
    (fun e he => (List.mem_filter.mp he).1) hskip
  have hcomm : (ds.filter (fun e => selMatches e sel)).filter (fun e => decide (e ∈ ds')) =
      ds'.filter (fun e => selMatches e sel) := by
    rw [List.filter_filter]
    have h1 : (ds.filter (fun a => decide (a ∈ ds'))).filter (fun e => selMatches e sel) =
        ds'.filter (fun e => selMatches e sel) := by
      rw [filter_mem_eq_of_sublist hsub hnd]
    rw [← h1, List.filter_filter]
    apply List.filter_congr
    intro e _
    exact Bool.and_comm _ _
  rw [hcomm] at h
  exact h

theorem foldl_runPass_order (st : Option String) (ds : List Elem) (hnd : ds.Nodup) :
    ∀ (sels : List Sel) (ds' : List Elem) (s : ScanState),
      List.Sublist ds' ds → (∀ e ∈ ds, e ∉ ds' → skipNow s e) →
      List.Sublist ((sels.foldl (runPass st ds) s).entries.map Prod.fst)
        ((s.entries.map Prod.fst) ++ canonicalRel ds' sels) := by
  intro sels
  induction sels with
  | nil =>
    intro ds' s _ _
    simp [canonicalRel]
  | cons sel rest ih =>
    intro ds' s hsub hskip
    simp only [List.foldl_cons, canonicalRel]
    have hstep := runPass_entries_sub st s sel hsub hnd hskip
    have hsub'' : List.Sublist (ds'.filter (fun e => !selMatches e sel)) ds :=
      (List.filter_sublist _).trans hsub
    have hskip' : ∀ e ∈ ds, e ∉ ds'.filter (fun e => !selMatches e sel) →
        skipNow (runPass st ds s sel) e := by
      intro e he hne
      by_cases hmem : e ∈ ds'
      · by_cases hm : selMatches e sel = true
        · exact foldl_skip_visited st _ s e (List.mem_filter.mpr ⟨he, hm⟩)
        · exact absurd (List.mem_filter.mpr ⟨hmem, by simp [hm]⟩) hne
      · exact skipNow_mono (runPass_le st ds s sel) (hskip e he hmem)
    have hrec := ih _ (runPass st ds s sel) hsub'' hskip'
    refine hrec.trans ?_
    rw [← List.append_assoc]
    exact List.Sublist.append_right hstep _

/-- Claim C3 (amended).  The per-section scan output is an ordered sequence
whose first ElementFact is the section container's; every remaining record
belongs to a descendant of the section; and the remaining records follow
the order induced by the fixed selector table — each element reported under
its first matching selector, document order within one selector — rather
than plain document traversal order. -/
theorem scan_order (st : Option String) (sec : SectionEl) (hwf : sectionWF sec) :
    (scanSectionComponents st sec).head? = some (sectionFact st sec.container) ∧
    List.Sublist ((scanChildEntries st sec).map Prod.fst)
      (canonicalRel sec.descendants componentSelectors) ∧
    (∀ p ∈ scanChildEntries st sec, ∃ e ∈ sec.descendants, e.uid = p.1) := by
  have hnd : sec.descendants.Nodup :=
    List.Nodup.of_map Elem.uid (List.nodup_cons.mp hwf).2
  refine ⟨?_, ?_, ?_⟩
  · rw [scanSectionComponents, scanSectionAux_eq, List.map_cons]
    rfl
  · have h := foldl_runPass_order st sec.descendants hnd componentSelectors
      sec.descendants ⟨[], [], []⟩ (List.Sublist.refl _)
      (fun e he hne => absurd he hne)
    simpa using h
  · intro p hp
    obtain ⟨e, he, heuid, _⟩ := scanChildEntries_good st sec p hp
    exact ⟨e, he, heuid⟩

/-- Witness for claim C3: the amended statement at the concrete section
`secC3`. -/
theorem scan_order_witness :
    (scanSectionComponents none secC3).head? = some (sectionFact none secC3.container) ∧
    List.Sublist ((scanChildEntries none secC3).map Prod.fst)
      (canonicalRel secC3.descendants componentSelectors) := by
  have h := scan_order none secC3 (by unfold sectionWF; decide)
  exact ⟨h.1, h.2.1⟩

/-- Counterexample for claim C3 as stated: in `secC3` the descendants in
document order are the paragraph (identity 1) then the heading
(identity 2), yet the scan reports the heading's record before the
paragraph's, because the selector table is walked selector by selector
(`h2` before `p`), not in document traversal order. -/
theorem scan_order_counterexample :
    secC3.descendants.map Elem.uid = [1, 2] ∧
    (scanSectionAux none secC3).map Prod.fst = [0, 2, 1] := by
  refine ⟨by decide, by decide⟩

theorem pushCapped_le (sel : String) {els : List String} (h : els.length ≤ 3) :
    (pushCapped sel els).length ≤ 3 := by
  unfold pushCapped
  by_cases hlt : els.length < 3
  · rw [if_pos hlt]
    simp only [List.length_append, List.length_singleton]
    omega
  · rw [if_neg hlt]
    exact h

theorem updateAssoc_pres {κ ν : Type} [BEq κ] (P : ν → Prop) (k : κ) (f : ν → ν)
    (m : List (κ × ν)) (hm : ∀ p ∈ m, P p.2) (hf : ∀ v, P v → P (f v)) :
    ∀ p ∈ updateAssoc k f m, P p.2 := by
  induction m with
  | nil => simp [updateAssoc]
  | cons a t ih =>
    intro p hp
    unfold updateAssoc at hp
    by_cases hk : a.1 == k
    · obtain ⟨k', v⟩ := a
      rw [if_pos hk] at hp
      rcases List.mem_cons.mp hp with rfl | hmem
      · exact hf v (hm (k', v) (List.mem_cons_self _ _))
      · exact hm p (List.mem_cons_of_mem _ hmem)
    · obtain ⟨k', v⟩ := a
      rw [if_neg hk] at hp
      rcases List.mem_cons.mp hp with rfl | hmem
      · exact hm (k', v) (List.mem_cons_self _ _)
      · exact ih (fun q hq => hm q (List.mem_cons_of_mem _ hq)) p hmem

theorem recordCapped_pres {κ : Type} [BEq κ] (k : κ) (sel : String)
    (m : List (κ × List String)) (hm : ∀ p ∈ m, p.2.length ≤ 3) :
    ∀ p ∈ recordCapped k sel m, p.2.length ≤ 3 := by
  intro p hp
  unfold recordCapped at hp
  refine updateAssoc_pres (fun els => els.length ≤ 3) k (pushCapped sel) _ ?_ ?_ p hp
  · intro q hq
    split at hq
    · exact hm q hq
    · rcases List.mem_append.mp hq with h | h
      · exact hm q h
      · rcases List.mem_singleton.mp h with rfl
        simp
  · intro v hv
    exact pushCapped_le sel hv

theorem recordColor_pres (k : String) (it ib : Bool) (sel : String)
    (m : List (String × ColorData)) (hm : ∀ p ∈ m, p.2.elements.length ≤ 3) :
    ∀ p ∈ recordColor k it ib sel m, p.2.elements.length ≤ 3 := by
  intro p hp
  unfold recordColor at hp
  refine updateAssoc_pres (fun d => d.elements.length ≤ 3) k _ _ ?_ ?_ p hp
  · intro q hq
    split at hq
    · exact hm q hq
    · rcases List.mem_append.mp hq with h | h
      · exact hm q h
      · rcases List.mem_singleton.mp h with rfl
        simp
  · intro v hv
    exact pushCapped_le sel hv

theorem recordSpacing_pres (sel : String) (m : List (ℤ × SpacingData))
    (pv : Option ℚ × String) (hm : ∀ p ∈ m, p.2.elements.length ≤ 3) :
    ∀ p ∈ recordSpacing sel m pv, p.2.elements.length ≤ 3 := by
  intro p hp
  unfold recordSpacing at hp
  split at hp
  · exact hm p hp
  · split at hp
    · refine updateAssoc_pres (fun d => d.elements.length ≤ 3) _ _ _ ?_ ?_ p hp
      · intro q hq
        split at hq
        · exact hm q hq
        · rcases List.mem_append.mp hq with h | h
          · exact hm q h
          · rcases List.mem_singleton.mp h with rfl
            simp
      · intro d hd
        exact pushCapped_le sel hd
    · exact hm p hp

theorem foldl_recordSpacing_pres (sel : String) (pvs : List (Option ℚ × String))
    (m : List (ℤ × SpacingData)) (hm : ∀ p ∈ m, p.2.elements.length ≤ 3) :
    ∀ p ∈ pvs.foldl (recordSpacing sel) m, p.2.elements.length ≤ 3 := by
  induction pvs generalizing m with
  | nil => exact hm
  | cons a t ih => exact ih _ (recordSpacing_pres sel m a hm)

theorem stepStyle_cappedInv (isDark : Bool) (m : StyleMaps) (e : PageElem)
    (hm : cappedInv m) : cappedInv (stepStyle isDark m e) := by
  obtain ⟨h1, h2, h3, h4⟩ := hm
  unfold stepStyle
  by_cases hmod : e.inDebugModal
  · rw [if_pos hmod]
    exact ⟨h1, h2, h3, h4⟩
  · rw [if_neg hmod]
    by_cases hhid : (e.offsetParentNull && e.tag != "BODY") = true
    · rw [if_pos hhid]
      exact ⟨h1, h2, h3, h4⟩
    · rw [if_neg hhid]
      refine ⟨?_, ?_, ?_, ?_⟩
      · by_cases hs : e.fontSizePx ≠ 0
        · simpa [hs] using recordCapped_pres e.fontSizePx _ m.sizes h1
        · simpa [hs] using h1
      · by_cases hw : e.fontWeightNum ≠ 0
        · simpa [hw] using recordCapped_pres e.fontWeightNum _ m.weights h2
        · simpa [hw] using h2
      · have htext : ∀ p ∈ (match rgbToHexStyle e.color with
            | some c =>
              if c ≠ "#000000" ∧ c ≠ "#FFFFFF" then
                recordColor c (isThemeColor isDark (some c)) false
                  (getElementSelectorStyle e.tag e.idAttr e.className) m.colors
              else m.colors
            | none => m.colors), p.2.elements.length ≤ 3 := by
          cases rgbToHexStyle e.color with
          | none => exact h3
          | some c =>
            by_cases hc : c ≠ "#000000" ∧ c ≠ "#FFFFFF"
            · simpa [hc] using recordColor_pres c _ false _ m.colors h3
            · simpa [hc] using h3
        cases hbg : rgbToHexStyle e.backgroundColor with
        | none => simpa [hbg] using htext
        | some b =>
          simpa [hbg] using recordColor_pres ("bg:" ++ b) _ true _ _ htext
      · exact foldl_recordSpacing_pres _ _ m.spacing h4

theorem foldl_stepStyle_cappedInv (isDark : Bool) (elems : List PageElem)
    (m : StyleMaps) (hm : cappedInv m) :
    cappedInv (elems.foldl (stepStyle isDark) m) := by
  induction elems generalizing m with
  | nil => exact hm
  | cons a t ih => exact ih _ (stepStyle_cappedInv isDark m a hm)

theorem mem_insertLt {α : Type} (lt : α → α → Bool) (x a : α) (l : List α)
    (h : a ∈ insertLt lt x l) : a = x ∨ a ∈ l := by
  induction l with
  | nil => simpa [insertLt] using h
  | cons b t ih =>
    unfold insertLt at h
    by_cases hb : lt b x = true
    · rw [if_pos hb] at h
      rcases List.mem_cons.mp h with rfl | h
      · exact Or.inr (List.mem_cons_self _ _)
      · rcases ih h with h | h
        · exact Or.inl h
        · exact Or.inr (List.mem_cons_of_mem _ h)
    · rw [if_neg hb] at h
      rcases List.mem_cons.mp h with rfl | h
      · exact Or.inl rfl
      · exact Or.inr h

theorem mem_sortLt {α : Type} (lt : α → α → Bool) (a : α) (l : List α)
    (h : a ∈ sortLt lt l) : a ∈ l := by
  induction l with
  | nil => simp [sortLt] at h
  | cons b t ih =>
    rcases mem_insertLt lt b a _ h with rfl | h
    · exact List.mem_cons_self _ _
    · exact List.mem_cons_of_mem _ (ih h)

/-- Claim C9 (amended).  In the full-page style scan, the font-size,
font-weight, color and spacing tables each store at most 3 example
selectors per distinct value; the font-family table is the exception — it
pushes one selector per occurrence with no cap (only the rendering slices
it to 3). -/
theorem scanStyles_caps (isDark : Bool) (elems : List PageElem) :
    (∀ en ∈ (scanStyles isDark elems).fontSize, en.elements.length ≤ 3) ∧
    (∀ en ∈ (scanStyles isDark elems).fontWeight, en.elements.length ≤ 3) ∧
    (∀ en ∈ (scanStyles isDark elems).color, en.elements.length ≤ 3) ∧
    (∀ en ∈ (scanStyles isDark elems).spacing, en.elements.length ≤ 3) := by
  obtain ⟨h1, h2, h3, h4⟩ := foldl_stepStyle_cappedInv isDark elems ⟨[], [], [], [], []⟩
    ⟨by simp, by simp, by simp, by simp⟩
  refine ⟨?_, ?_, ?_, ?_⟩
  · intro en hen
    unfold scanStyles at hen
    simp only [List.mem_map] at hen
    obtain ⟨p, hp, rfl⟩ := hen
    exact h1 p (mem_sortLt _ p _ hp)
  · intro en hen
    unfold scanStyles at hen
    simp only [List.mem_map] at hen
    obtain ⟨p, hp, rfl⟩ := hen
    exact h2 p (mem_sortLt _ p _ hp)
  · intro en hen
    unfold scanStyles at hen
    have hmem := mem_sortLt _ en _ hen
    simp only [List.mem_map] at hmem
    obtain ⟨p, hp, rfl⟩ := hmem
    exact h3 p hp
  · intro en hen
    unfold scanStyles at hen
    simp only [List.mem_map] at hen
    obtain ⟨p, hp, rfl⟩ := hen
    exact h4 p (mem_sortLt _ p _ hp)

/-- Witness for claim C9: the amended cap at the concrete four-element
page, whose single font-size entry keeps three of the four selectors. -/
theorem scanStyles_caps_witness :
    (⟨16, ["div.a", "div.b", "div.c"]⟩ : SizeEntry).elements.length ≤ 3 := by
  have h := (scanStyles_caps false
    [plainPage "a" "Comic Sans MS", plainPage "b" "Comic Sans MS",
     plainPage "c" "Comic Sans MS", plainPage "d" "Comic Sans MS"]).1
  exact h ⟨16, ["div.a", "div.b", "div.c"]⟩ (by decide)

/-- Counterexample for claim C9 as stated: four visible elements share the
non-system font family `Comic Sans MS`; the resulting font-family table
entry stores all four selectors, exceeding the claimed cap of 3 — the
`length < 3` guard is applied to every other table but not this one. -/
theorem scanStyles_fontFamily_uncapped :
    ((scanStyles false
      [plainPage "a" "Comic Sans MS", plainPage "b" "Comic Sans MS",
       plainPage "c" "Comic Sans MS", plainPage "d" "Comic Sans MS"]).fontFamily.map
        (fun en => en.elements.length)) = [4] := by
  decide

